import Mathlib

/-! Workload controller: label-binding reconciliation.

A shallow embedding of the three reconcilers of `rancher/workload-controller`

* `controller/workloadservice/workloadservice.go` (service Create / Updated / Remove),
* `controller/podtoworkload/podtoworkload.go` (pod sync),
* `controller/endpoint/endpoint.go` (endpoint Create / Updated / Remove),

followed by theorems about them.

Modelling conventions.

* Go `map[string]string` values are association lists (`StrMap`); a Go map has one
  entry per key, which is the predicate `StrMap.WF`.  A `nil` map is `none` wherever the
  source distinguishes or writes to it.
* The object store is a record of lists (`World`).  Listers and clients read and write
  the same store.  Every store call first consults `Env.fault`, so that each call can
  fail with an arbitrary error, as the Go interfaces allow.
* A Go run-time panic (write to a nil map, nil pointer dereference, index out of range)
  is the outcome `Res.panic`, distinct from a returned error.
* `labels.SelectorFromSet` is the conjunction of equalities `key = value`, and
  `labels.NewSelector()` selects everything.  A lister's `List(namespace, selector)`
  returns the stored objects of that namespace that the selector matches.
* `pods.Update` replaces the stored pod of the same namespace and name; resource
  versions are not modelled, a rejected write is a fault of the call.
* Package `dnsrecord` is not part of the sources at hand: its function
  `GetProjectNamespaces` and its two annotation names are parameters (`Env`).
-/

namespace WorkloadController

/-! ## Strings -/

/-- Go `unicode.IsSpace`: the Unicode White_Space property. -/
def isSpace (c : Char) : Bool :=
  let n := c.toNat
  n == 0x20 || (0x09 ≤ n && n ≤ 0x0D) || n == 0x85 || n == 0xA0 || n == 0x1680 ||
  (0x2000 ≤ n && n ≤ 0x200A) || n == 0x2028 || n == 0x2029 || n == 0x202F ||
  n == 0x205F || n == 0x3000

/-- Go `strings.TrimSpace` on the characters of a string. -/
def trimChars (cs : List Char) : List Char :=
  ((cs.dropWhile isSpace).reverse.dropWhile isSpace).reverse

/-- Go `strings.TrimSpace`. -/
def TrimSpace (s : String) : String := ⟨trimChars s.data⟩

/-- Pieces of a character list between occurrences of `sep`. -/
def splitChars (sep : Char) : List Char → List (List Char)
  | [] => [[]]
  | c :: cs =>
    if c = sep then [] :: splitChars sep cs
    else
      match splitChars sep cs with
      | [] => [[c]]
      | piece :: pieces => (c :: piece) :: pieces

/-- Go `strings.Split(s, sep)` for a one-character separator. -/
def Split (s : String) (sep : Char) : List String :=
  (splitChars sep s.data).map String.mk

/-- Go `fmt.Sprintf("%s:%s", a, b)`. -/
def nsName (a b : String) : String := a ++ ":" ++ b

/-! ## Go maps -/

/-- Go `map[string]string` as an association list. -/
abbrev StrMap := List (String × String)

namespace StrMap

/-- Go `v, ok := m[k]`. -/
def get : StrMap → String → Option String
  | [], _ => none
  | (k', v) :: rest, k => if k' = k then some v else get rest k

/-- Go `m[k] = v`. -/
def set : StrMap → String → String → StrMap
  | [], k, v => [(k, v)]
  | (k', v') :: rest, k, v => if k' = k then (k, v) :: rest else (k', v') :: set rest k v

/-- Go `for k, v := range src { m[k] = v }`. -/
def setAll (m src : StrMap) : StrMap := src.foldl (fun acc kv => acc.set kv.1 kv.2) m

/-- A Go map holds one entry per key. -/
def WF (m : StrMap) : Prop := (m.map Prod.fst).Nodup

instance (m : StrMap) : Decidable (WF m) :=
  inferInstanceAs (Decidable ((m.map Prod.fst).Nodup))

end StrMap

/-- Reading a possibly nil Go map: a nil map has no entry. -/
def getLabel (m : Option StrMap) (k : String) : Option String :=
  match m with
  | none => none
  | some m => m.get k


/-! ## Objects -/

/-- The fields of `corev1.Pod` the reconcilers read or write. -/
structure Pod where
  Namespace : String
  Name : String
  Labels : Option StrMap
  DeletionTimestamp : Option Nat
  deriving DecidableEq, Repr

/-- Go `metav1.LabelSelector`; only `MatchLabels` is read by the source. -/
structure LabelSelector where
  MatchLabels : StrMap
  deriving DecidableEq, Repr

/-- The fields of a deployment the reconcilers read; `Selector` is `Spec.Selector`,
a pointer in the Go type. -/
structure Deployment where
  Namespace : String
  Name : String
  DeletionTimestamp : Option Nat
  Selector : Option LabelSelector
  deriving DecidableEq, Repr

/-- The fields of `corev1.Service` the reconcilers read or write; `Selector` is
`Spec.Selector`. -/
structure Service where
  Namespace : String
  Name : String
  Annotations : Option StrMap
  Selector : Option StrMap
  deriving DecidableEq, Repr

/-- The fields of `corev1.Endpoints` the endpoint reconciler reads. -/
structure Endpoints where
  Namespace : String
  Name : String
  Annotations : Option StrMap
  deriving DecidableEq, Repr

/-! ## Errors and outcomes -/

/-- Errors returned by the store or built by the reconcilers. -/
inductive Err where
  | notFound (kind ns name : String)
  | storeFailure (msg : String)
  | wrongFormat (groomed : String)
  | wrapf (msg : String) (cause : Err)
  deriving DecidableEq, Repr

/-- Go `k8serrors.IsNotFound`. -/
def IsNotFound : Err → Bool
  | .notFound _ _ _ => true
  | _ => false

/-- Outcome of a Go call: a normal return, a returned error, or a run-time panic. -/
inductive Res (α : Type) where
  | ok (a : α)
  | error (e : Err)
  | panic (msg : String)
  deriving DecidableEq, Repr

/-! ## The store -/

/-- Calls on the object store, as seen by the fault oracle. -/
inductive Call where
  | podList (ns : String)
  | podUpdate (ns name : String)
  | deploymentGet (ns name : String)
  | deploymentList (ns : String)
  | serviceGet (ns name : String)
  | serviceList (ns : String)
  deriving DecidableEq, Repr

/-- What the reconcilers are given from outside `src/`: the project-namespace lookup
`dnsrecord.GetProjectNamespaces` (the keys of the map it returns), the two annotation
names of package `dnsrecord`, and the faults of the store. -/
structure Env where
  GetProjectNamespaces : Service → Except Err (List String)
  DNSAnnotation : String
  DNSEndpointAnnotation : String
  fault : Call → Option Err

/-- The state the reconcilers act on: the three object kinds, the process-wide map
`WorkloadServiceUUIDToDeploymentUUIDs` (service key to the key set of a
`map[string]bool`), the log of `pods.Update` calls and the log of `Enqueue` calls. -/
structure World where
  pods : List Pod
  deployments : List Deployment
  services : List Service
  index : List (String × List String)
  updateCalls : List Pod
  queue : List (String × String)
  deriving DecidableEq, Repr

/-- `labels.SelectorFromSet(set).Matches(labels)`: every pair of the set is a label. -/
def selectorMatches (set : StrMap) (labels : Option StrMap) : Bool :=
  set.all fun kv => getLabel labels kv.1 == some kv.2

/-- Lister call `podLister.List(namespace, selector)`. -/
def podList (env : Env) (w : World) (ns : String) (set : StrMap) : Except Err (List Pod) :=
  match env.fault (.podList ns) with
  | some e => .error e
  | none => .ok (w.pods.filter fun p => p.Namespace == ns && selectorMatches set p.Labels)

/-- Whether the pod is stored under the namespace and name. -/
def Pod.hasKey (p : Pod) (ns name : String) : Bool := p.Namespace == ns && p.Name == name

/-- The pod store after the pod stored under the key of `toUpdate` is replaced by it. -/
def replacePod (pods : List Pod) (toUpdate : Pod) : List Pod :=
  pods.map fun p => if p.hasKey toUpdate.Namespace toUpdate.Name then toUpdate else p

/-- Client call `pods.Update(toUpdate)`: the stored pod of that namespace and name is
replaced; the call is logged. -/
def podUpdate (env : Env) (w : World) (toUpdate : Pod) : Except Err Unit × World :=
  let w := { w with updateCalls := w.updateCalls ++ [toUpdate] }
  match env.fault (.podUpdate toUpdate.Namespace toUpdate.Name) with
  | some e => (.error e, w)
  | none =>
    if w.pods.any (fun p => p.hasKey toUpdate.Namespace toUpdate.Name) then
      (.ok (), { w with pods := replacePod w.pods toUpdate })
    else (.error (.notFound "pods" toUpdate.Namespace toUpdate.Name), w)

/-- Lister call `deploymentLister.Get(namespace, name)`. -/
def deploymentGet (env : Env) (w : World) (ns name : String) : Except Err Deployment :=
  match env.fault (.deploymentGet ns name) with
  | some e => .error e
  | none =>
    match w.deployments.find? fun d => d.Namespace == ns && d.Name == name with
    | some d => .ok d
    | none => .error (.notFound "deployments" ns name)

/-- Lister call `deploymentLister.List(namespace, labels.NewSelector())`. -/
def deploymentList (env : Env) (w : World) (ns : String) : Except Err (List Deployment) :=
  match env.fault (.deploymentList ns) with
  | some e => .error e
  | none => .ok (w.deployments.filter fun d => d.Namespace == ns)

/-- Lister call `serviceLister.Get(namespace, name)`. -/
def serviceGet (env : Env) (w : World) (ns name : String) : Except Err Service :=
  match env.fault (.serviceGet ns name) with
  | some e => .error e
  | none =>
    match w.services.find? fun s => s.Namespace == ns && s.Name == name with
    | some s => .ok s
    | none => .error (.notFound "services" ns name)

/-- Lister call `serviceLister.List(namespace, labels.NewSelector())`. -/
def serviceList (env : Env) (w : World) (ns : String) : Except Err (List Service) :=
  match env.fault (.serviceList ns) with
  | some e => .error e
  | none => .ok (w.services.filter fun s => s.Namespace == ns)

/-! ## The shared index `WorkloadServiceUUIDToDeploymentUUIDs` -/

/-- Go `sync.Map.Load`. -/
def indexLoad : List (String × List String) → String → Option (List String)
  | [], _ => none
  | (k', v) :: rest, k => if k' = k then some v else indexLoad rest k

/-- Go `sync.Map.Store`: the value under the key is replaced. -/
def indexStore : List (String × List String) → String → List String →
    List (String × List String)
  | [], k, v => [(k, v)]
  | (k', v') :: rest, k, v =>
    if k' = k then (k, v) :: rest.filter (fun e => e.1 != k)
    else (k', v') :: indexStore rest k v

/-- Go `sync.Map.Delete`. -/
def indexDelete (idx : List (String × List String)) (k : String) :
    List (String × List String) :=
  idx.filter fun e => e.1 != k

/-- Go `m[k] = true` on a `map[string]bool` kept as its key set. -/
def keySetAdd (keys : List String) (k : String) : List String :=
  if k ∈ keys then keys else keys ++ [k]

/-! ## `controller/workloadservice/workloadservice.go` -/

namespace workloadservice

/-- Constant `WorkloadAnnotation`. -/
def WorkloadAnnotation : String := "field.cattle.io/targetWorkloadIds"

/-- Constant `WorkloadIDLabelPrefix`. -/
def WorkloadIDLabelPrefix : String := "workloadID"

/-- Go `getServiceSelector`: `fmt.Sprintf("%s_%s", WorkloadIDLabelPrefix, obj.Name)`. -/
def getServiceSelector (obj : Service) : String := WorkloadIDLabelPrefix ++ "_" ++ obj.Name

/-- What a lifecycle handler leaves behind: the returned pair (object to write back, or
an error), the service object after the in-place mutation, and the state. -/
structure Reconciled where
  result : Res (Option Service)
  obj : Service
  world : World
  deriving DecidableEq, Repr

/-- Lines 145-155 of `updatePods`: a listed pod that is not terminating is appended to
`podsToUpdate` once for every selector entry it does not carry. -/
def collectPods (selector : StrMap) (pods : List Pod) : List Pod :=
  pods.flatMap fun pod =>
    match pod.DeletionTimestamp with
    | some _ => []
    | none =>
      (selector.filter fun kv => !(getLabel pod.Labels kv.1 == some kv.2)).map fun _ => pod

/-- Lines 160-162 of `updatePods`: `toUpdate.Labels[key] = value` for every selector
entry; writing to a nil map panics. -/
def assignLabels : Option StrMap → StrMap → Res (Option StrMap)
  | labels, [] => .ok labels
  | none, _ :: _ => .panic "assignment to entry in nil map"
  | some m, (k, v) :: rest => assignLabels (some (m.set k v)) rest

/-- Lines 158-166 of `updatePods`: every pod of `podsToUpdate` is copied, labelled and
written. -/
def updateLabelled (env : Env) (selector : StrMap) (groomed : String) :
    List Pod → World → Res Unit × World
  | [], w => (.ok (), w)
  | pod :: rest, w =>
    match assignLabels pod.Labels selector with
    | .ok labels =>
      match podUpdate env w { pod with Labels := labels } with
      | (.ok _, w') => updateLabelled env selector groomed rest w'
      | (.error e, w') =>
        (.error (.wrapf ("Failed to update pod [" ++ pod.Name ++ "] for target workload ["
          ++ groomed ++ "]") e), w')
    | .error e => (.error e, w)
    | .panic msg => (.panic msg, w)

/-- Lines 131-166 of `updatePods`: the deployment is recorded, its pods are listed,
the pods lacking a selector entry are appended to `podsToUpdate`, and every pod of
`podsToUpdate` is written. -/
def labelTargetPods (env : Env) (selector : StrMap) (groomed : String)
    (targetWorkload : Deployment) (podsToUpdate : List Pod)
    (targetWorkloadUUIDs : List String) (w : World) :
    Res (List Pod × List String) × World :=
  let targetWorkloadUUIDs := keySetAdd targetWorkloadUUIDs
    (nsName targetWorkload.Namespace targetWorkload.Name)
  match targetWorkload.Selector with
  | none => (.panic "nil pointer dereference", w)
  | some workloadSelector =>
    match podList env w targetWorkload.Namespace workloadSelector.MatchLabels with
    | .error e =>
      (.error (.wrapf ("Failed to list pods for target workload [" ++ groomed ++ "]") e), w)
    | .ok pods =>
      let podsToUpdate := podsToUpdate ++ collectPods selector pods
      match updateLabelled env selector groomed podsToUpdate w with
      | (.ok _, w') => (.ok (podsToUpdate, targetWorkloadUUIDs), w')
      | (.error e, w') => (.error e, w')
      | (.panic msg, w') => (.panic msg, w')

/-- Lines 110-166 of `updatePods`: the loop body for one annotation token; `.ok` is
the state carried to the next token (`continue` or the end of the body), anything else
leaves `updatePods`. -/
def tokenStep (env : Env) (selector : StrMap) (namespaces : List String)
    (workloadID : String) (podsToUpdate : List Pod) (targetWorkloadUUIDs : List String)
    (w : World) : Res (List Pod × List String) × World :=
  let groomed := TrimSpace workloadID
  match Split groomed ':' with
  | ns :: workloadName :: _ =>
    if ns ∈ namespaces then
      match deploymentGet env w ns workloadName with
      | .error _ => (.ok (podsToUpdate, targetWorkloadUUIDs), w)
      | .ok targetWorkload =>
        match targetWorkload.DeletionTimestamp with
        | some _ => (.ok (podsToUpdate, targetWorkloadUUIDs), w)
        | none =>
          labelTargetPods env selector groomed targetWorkload podsToUpdate
            targetWorkloadUUIDs w
    else (.ok (podsToUpdate, targetWorkloadUUIDs), w)
  | _ => (.error (.wrongFormat groomed), w)

/-- Lines 109-167 of `updatePods`: the loop over the annotation tokens, carrying
`podsToUpdate` (declared before the loop) and `targetWorkloadUUIDs`. -/
def updatePodsLoop (env : Env) (selector : StrMap) (namespaces : List String) :
    List String → List Pod → List String → World → Res (List Pod × List String) × World
  | [], podsToUpdate, targetWorkloadUUIDs, w => (.ok (podsToUpdate, targetWorkloadUUIDs), w)
  | workloadID :: rest, podsToUpdate, targetWorkloadUUIDs, w =>
    match tokenStep env selector namespaces workloadID podsToUpdate targetWorkloadUUIDs w with
    | (.ok (podsToUpdate, targetWorkloadUUIDs), w') =>
      updatePodsLoop env selector namespaces rest podsToUpdate targetWorkloadUUIDs w'
    | (.error e, w') => (.error e, w')
    | (.panic msg, w') => (.panic msg, w')

/-- Go `updatePods`. -/
def updatePods (env : Env) (w : World) (obj : Service) (workloadIDs : List String) :
    Res Unit × World :=
  match env.GetProjectNamespaces obj with
  | .error e => (.error e, w)
  | .ok namespaces =>
    match updatePodsLoop env (obj.Selector.getD []) namespaces workloadIDs [] [] w with
    | (.ok (_, targetWorkloadUUIDs), w') =>
      let workloadServiceUUID := nsName obj.Namespace obj.Name
      (.ok (), { w' with index := indexStore w'.index workloadServiceUUID targetWorkloadUUIDs })
    | (.error e, w') => (.error e, w')
    | (.panic msg, w') => (.panic msg, w')

/-- Lines 78-86 of `reconcilePods`: the service object after the synthetic selector
entry is added when its key is absent. -/
def withSelector (obj : Service) : Service :=
  let selector := obj.Selector.getD []
  match selector.get (getServiceSelector obj) with
  | some _ => { obj with Selector := some selector }
  | none => { obj with Selector := some (selector.set (getServiceSelector obj) "true") }

/-- Go `reconcilePods`. -/
def reconcilePods (env : Env) (w : World) (obj : Service) : Reconciled :=
  match obj.Annotations with
  | none => ⟨.ok none, obj, w⟩
  | some annotations =>
    match annotations.get WorkloadAnnotation with
    | none => ⟨.ok none, obj, w⟩
    | some value =>
      let workdloadIDs := Split value ','
      let update := ((obj.Selector.getD []).get (getServiceSelector obj)).isNone
      let obj := withSelector obj
      match updatePods env w obj workdloadIDs with
      | (.ok _, w') => ⟨.ok (if update then some obj else none), obj, w'⟩
      | (.error e, w') => ⟨.error e, obj, w'⟩
      | (.panic msg, w') => ⟨.panic msg, obj, w'⟩

/-- Go `Controller.Create`. -/
def Create (env : Env) (w : World) (obj : Service) : Reconciled := reconcilePods env w obj

/-- Go `Controller.Updated`. -/
def Updated (env : Env) (w : World) (obj : Service) : Reconciled := reconcilePods env w obj

/-- Go `Controller.Remove`. -/
def Remove (w : World) (obj : Service) : Reconciled :=
  ⟨.ok none, obj, { w with index := indexDelete w.index (nsName obj.Namespace obj.Name) }⟩

end workloadservice

/-! ## `controller/podtoworkload/podtoworkload.go` -/

namespace podtoworkload

/-- Lines 48-53 of `sync`: the `Range` over the index keeps the service keys whose
target set holds the deployment key. -/
def servicesTargeting (index : List (String × List String)) (deploymentUUID : String) :
    List String :=
  (index.filter fun e => decide (deploymentUUID ∈ e.2)).map Prod.fst

/-- Lines 43-55 of `sync`: `workloadServiceUUIDToAdd`; `d.Spec.Selector.MatchLabels`
dereferences the selector pointer. -/
def matchingServiceUUIDs (index : List (String × List String)) (obj : Pod) :
    List Deployment → List String → Res (List String)
  | [], workloadServiceUUIDToAdd => .ok workloadServiceUUIDToAdd
  | d :: rest, workloadServiceUUIDToAdd =>
    match d.Selector with
    | none => .panic "nil pointer dereference"
    | some selector =>
      if selectorMatches selector.MatchLabels obj.Labels then
        matchingServiceUUIDs index obj rest
          (workloadServiceUUIDToAdd ++ servicesTargeting index (nsName d.Namespace d.Name))
      else matchingServiceUUIDs index obj rest workloadServiceUUIDToAdd

/-- Lines 57-67 of `sync`: `workLoadLabels`, the selectors of the services found;
`splitted[1]` is read without a length check and every `Get` error is returned. -/
def collectWorkLoadLabels (env : Env) (w : World) (obj : Pod) :
    List String → StrMap → Res StrMap
  | [], workLoadLabels => .ok workLoadLabels
  | workloadServiceUUID :: rest, workLoadLabels =>
    match Split workloadServiceUUID ':' with
    | _ :: name :: _ =>
      match serviceGet env w obj.Namespace name with
      | .error e => .error e
      | .ok workload =>
        collectWorkLoadLabels env w obj rest
          (workLoadLabels.setAll (workload.Selector.getD []))
    | _ => .panic "index out of range"

/-- Lines 71-77 of `sync`: the loop ranges over `labelsToAdd` itself, the map it has
just made, and inserts into it the entries whose key the pod does not carry. -/
def computeLabelsToAdd (obj : Pod) : StrMap :=
  let labelsToAdd : StrMap := []
  labelsToAdd.foldl
    (fun acc kv => if (getLabel obj.Labels kv.1).isSome then acc else acc.set kv.1 kv.2)
    labelsToAdd

/-- Go `Controller.sync`. -/
def sync (env : Env) (w : World) (_key : String) (obj : Option Pod) : Res Unit × World :=
  match obj with
  | none => (.ok (), w)
  | some obj =>
    match obj.DeletionTimestamp with
    | some _ => (.ok (), w)
    | none =>
      match deploymentList env w obj.Namespace with
      | .error e => (.error e, w)
      | .ok deployments =>
        match matchingServiceUUIDs w.index obj deployments [] with
        | .panic msg => (.panic msg, w)
        | .error e => (.error e, w)
        | .ok workloadServiceUUIDToAdd =>
          match collectWorkLoadLabels env w obj workloadServiceUUIDToAdd [] with
          | .panic msg => (.panic msg, w)
          | .error e => (.error e, w)
          | .ok workLoadLabels =>
            if workLoadLabels.length = 0 then (.ok (), w)
            else
              let labelsToAdd := computeLabelsToAdd obj
              if labelsToAdd.length > 0 then
                match workloadservice.assignLabels obj.Labels labelsToAdd with
                | .panic msg => (.panic msg, w)
                | .error e => (.error e, w)
                | .ok labels =>
                  match podUpdate env w { obj with Labels := labels } with
                  | (.error e, w') => (.error e, w')
                  | (.ok _, w') => (.ok (), w')
              else (.ok (), w)

end podtoworkload

/-! ## `controller/endpoint/endpoint.go` -/

namespace endpoint

/-- Lines 58-73 of `getDNSRecordServices`: one key per record of the service's
annotation that equals the endpoint's key. -/
def recordsOf (env : Env) (epNsSvcName : String) (svc : Service) : List String :=
  match svc.Annotations with
  | none => []
  | some annotations =>
    match annotations.get env.DNSAnnotation with
    | none => []
    | some value =>
      ((Split value ',').filter fun record => TrimSpace record == epNsSvcName).map
        fun _ => nsName svc.Namespace svc.Name

/-- Go `Controller.getDNSRecordServices`. -/
def getDNSRecordServices (env : Env) (w : World) (obj : Endpoints) (create : Bool) :
    Except Err (List String) :=
  let epNsSvcName := nsName obj.Namespace obj.Name
  if create then
    match serviceList env w obj.Namespace with
    | .error e => .error e
    | .ok svcs => .ok (svcs.flatMap (recordsOf env epNsSvcName))
  else
    match getLabel obj.Annotations env.DNSEndpointAnnotation with
    | some value => .ok (Split value ',')
    | none => .ok []

/-- Lines 89-110 of `reconcileServiceForEndpoint`: the loop over the service keys;
`splitted[1]` is read without a length check, and a service that is not found ends the
loop with `return nil`. -/
def triggerServices (env : Env) : List String → World → Res Unit × World
  | [], w => (.ok (), w)
  | namespaceServiceName :: rest, w =>
    let groomed := TrimSpace namespaceServiceName
    match Split groomed ':' with
    | ns :: serviceName :: _ =>
      match serviceGet env w ns serviceName with
      | .error e => if IsNotFound e then (.ok (), w) else (.error e, w)
      | .ok _ => triggerServices env rest { w with queue := w.queue ++ [(ns, serviceName)] }
    | _ => (.panic "index out of range", w)

/-- Go `Controller.reconcileServiceForEndpoint`. -/
def reconcileServiceForEndpoint (env : Env) (w : World) (obj : Endpoints) (create : Bool) :
    Res Unit × World :=
  match getDNSRecordServices env w obj create with
  | .error e =>
    (.error (.wrapf ("Failed to fetch DNSRecord services for endpoint [" ++ obj.Name
      ++ "] in namespace [" ++ obj.Namespace ++ "]") e), w)
  | .ok namespaceServiceNames => triggerServices env namespaceServiceNames w

/-- Go `Controller.Remove`. -/
def Remove (env : Env) (w : World) (obj : Endpoints) : Res Unit × World :=
  reconcileServiceForEndpoint env w obj false

/-- Go `Controller.Create`. -/
def Create (env : Env) (w : World) (obj : Endpoints) : Res Unit × World :=
  reconcileServiceForEndpoint env w obj true

/-- Go `Controller.Updated`. -/
def Updated (env : Env) (w : World) (obj : Endpoints) : Res Unit × World :=
  reconcileServiceForEndpoint env w obj false

end endpoint

/-! ## A reference configuration -/

/-- An environment without faults in which the given namespaces are visible. -/
def envOf (namespaces : List String) : Env where
  GetProjectNamespaces := fun _ => .ok namespaces
  DNSAnnotation := "field.cattle.io/targetDnsRecordIds"
  DNSEndpointAnnotation := "field.cattle.io/dnsRecordServices"
  fault := fun _ => none

/-- The service of the worked example: `svc-a` in `ns1`, bound to `ns1:dep1`. -/
def svcA : Service :=
  ⟨"ns1", "svc-a", some [(workloadservice.WorkloadAnnotation, "ns1:dep1")], none⟩

/-- The deployment of the worked example, selecting `app=a`. -/
def dep1 : Deployment := ⟨"ns1", "dep1", none, some ⟨[("app", "a")]⟩⟩

/-- The pod of the worked example, labelled `app=a`. -/
def podA : Pod := ⟨"ns1", "pod-a", some [("app", "a")], none⟩

/-- The store of the worked example, with an empty index. -/
def exampleWorld : World := ⟨[podA], [dep1], [svcA], [], [], []⟩

/-- The environment of the worked example: no faults, namespace `ns1` visible. -/
def exampleEnv : Env := envOf ["ns1"]

/-- A service like `svc-a` whose selector already holds the synthetic key, with the
value `"false"`. -/
def svcPinned : Service :=
  ⟨"ns1", "svc-a", some [(workloadservice.WorkloadAnnotation, "ns1:dep1")],
    some [("workloadID_svc-a", "false")]⟩

/-- A service like `svc-a` whose token has two `:` separators. -/
def svcThreePieces : Service :=
  ⟨"ns1", "svc-a", some [(workloadservice.WorkloadAnnotation, "ns1:dep1:extra")], none⟩

/-- A service like `svc-a` whose second token has no `:` separator. -/
def svcBadToken : Service :=
  ⟨"ns1", "svc-a", some [(workloadservice.WorkloadAnnotation, "ns1:dep1, badtoken")], none⟩

/-- The store of the worked example with an index left by earlier events: a stale
entry for `svc-a` and an entry of another service. -/
def staleIndexWorld : World :=
  { exampleWorld with
    index := [("ns1:svc-a", ["ns1:old", "ns1:dep1"]), ("ns1:other", ["ns1:dep9"])] }

/-- The service `svc-a` as stored after its reconciliation: the selector holds the
synthetic entry. -/
def svcALabelled : Service :=
  ⟨"ns1", "svc-a", some [(workloadservice.WorkloadAnnotation, "ns1:dep1")],
    some [("workloadID_svc-a", "true")]⟩

/-- A pod of `dep1` created after the binding of `svc-a` was registered. -/
def podB : Pod := ⟨"ns1", "pod-b", some [("app", "a")], none⟩

/-- A store in which `svc-a` is bound to `ns1:dep1` in the index and `pod-b` is not
labelled yet. -/
def boundWorld : World :=
  ⟨[podB], [dep1], [svcALabelled], [("ns1:svc-a", ["ns1:dep1"])], [], []⟩

/-- The store `boundWorld` whose index also holds an entry of a service `svc-gone`
that is no longer stored. -/
def staleBindingWorld : World :=
  ⟨[podB], [dep1], [svcALabelled],
    [("ns1:svc-gone", ["ns1:dep1"]), ("ns1:svc-a", ["ns1:dep1"])], [], []⟩

/-- An endpoint whose reverse annotation names the missing service `svc-gone` before
the stored service `svc-a`. -/
def epGoneFirst : Endpoints :=
  ⟨"ns1", "ep-a", some [(exampleEnv.DNSEndpointAnnotation, "ns1:svc-gone,ns1:svc-a")]⟩

/-- An endpoint whose reverse annotation names the stored service `svc-a` before the
missing service `svc-gone`. -/
def epGoneLast : Endpoints :=
  ⟨"ns1", "ep-a", some [(exampleEnv.DNSEndpointAnnotation, "ns1:svc-a,ns1:svc-gone")]⟩

/-- A service in `ns1` whose DNS-record annotation lists the endpoint `ns1:ep-a`. -/
def svcDns : Service :=
  ⟨"ns1", "svc-dns", some [(exampleEnv.DNSAnnotation, "ns2:ep-x, ns1:ep-a")], none⟩

/-- A service in `ns1` whose DNS-record annotation lists another endpoint. -/
def svcOtherDns : Service :=
  ⟨"ns1", "svc-other", some [(exampleEnv.DNSAnnotation, "ns1:ep-b")], none⟩

/-- A store with three services in `ns1`, one of which lists the endpoint `ns1:ep-a`. -/
def dnsWorld : World := ⟨[], [], [svcA, svcDns, svcOtherDns], [], [], []⟩

/-- A second service in `ns1` whose DNS-record annotation lists the endpoint
`ns1:ep-a`. -/
def svcDns2 : Service :=
  ⟨"ns1", "svc-dns2", some [(exampleEnv.DNSAnnotation, "ns1:ep-a")], none⟩

/-- A store with the two services of `ns1` that list the endpoint `ns1:ep-a`. -/
def dnsPairWorld : World := ⟨[], [], [svcDns, svcDns2], [], [], []⟩

/-- The environment of the worked example in which `Get` of the service `ns1/svc-dns`
fails with a store error. -/
def getFailsEnv : Env where
  GetProjectNamespaces := fun _ => .ok ["ns1"]
  DNSAnnotation := exampleEnv.DNSAnnotation
  DNSEndpointAnnotation := exampleEnv.DNSEndpointAnnotation
  fault := fun call =>
    if call = .serviceGet "ns1" "svc-dns" then some (.storeFailure "etcd unavailable")
    else none

/-- The environment of the worked example in which `Get` of the service `ns1/svc-dns`
answers NotFound, as when the service is deleted between `List` and `Get`. -/
def getNotFoundEnv : Env where
  GetProjectNamespaces := fun _ => .ok ["ns1"]
  DNSAnnotation := exampleEnv.DNSAnnotation
  DNSEndpointAnnotation := exampleEnv.DNSEndpointAnnotation
  fault := fun call =>
    if call = .serviceGet "ns1" "svc-dns" then some (.notFound "services" "ns1" "svc-dns")
    else none

/-- The endpoint `ep-a` of `ns1`, without annotations. -/
def epA : Endpoints := ⟨"ns1", "ep-a", none⟩

/-- The service `svc-a` after its target-workload annotation was removed. -/
def svcAUnannotated : Service :=
  ⟨"ns1", "svc-a", some [], some [("workloadID_svc-a", "true")]⟩

/-- A service without annotations, selecting `app=x`. -/
def svcBare : Service := ⟨"ns1", "svc-bare", none, some [("app", "x")]⟩

/-- An endpoint whose reverse annotation is a token without a `:` separator. -/
def epNoSeparator : Endpoints :=
  ⟨"ns1", "ep-a", some [(exampleEnv.DNSEndpointAnnotation, "ns1:svc-a,badtoken")]⟩

/-- An endpoint whose reverse annotation is the empty string. -/
def epEmptyAnnotation : Endpoints :=
  ⟨"ns1", "ep-a", some [(exampleEnv.DNSEndpointAnnotation, "")]⟩

/-- A service like `svc-a` with three more tokens: a namespace that is not visible, a
deployment that is not stored, and a deployment that is being deleted. -/
def svcManyTokens : Service :=
  ⟨"ns1", "svc-a",
    some [(workloadservice.WorkloadAnnotation, "ns9:dep1, ns1:dep-gone,ns1:dep1 ,ns1:dep-old")],
    none⟩

/-- A deployment of `ns1` that is being deleted. -/
def depOld : Deployment := ⟨"ns1", "dep-old", some 7, some ⟨[("app", "a")]⟩⟩

/-- The store of the worked example with the deployment that is being deleted. -/
def manyTokensWorld : World := ⟨[podA], [dep1, depOld], [svcA], [], [], []⟩

/-- A service like `svc-a` whose own selector holds `app=x`. -/
def svcOverride : Service :=
  ⟨"ns1", "svc-a", some [(workloadservice.WorkloadAnnotation, "ns1:dep1")],
    some [("app", "x")]⟩

/-- The pod of the worked example with one more label, `tier=t`. -/
def podTier : Pod := ⟨"ns1", "pod-a", some [("app", "a"), ("tier", "t")], none⟩

/-- The store of the worked example holding `podTier`. -/
def tierWorld : World := ⟨[podTier], [dep1], [svcA], [], [], []⟩

/-! ## Specification-side definitions -/

namespace workloadservice

/-- The deployment an annotation token resolves to: the token, trimmed, splits on `:`
into at least a namespace and a name, the namespace is visible to the project, the
deployment is found and it is not being deleted. -/
def resolveToken (env : Env) (w : World) (namespaces : List String) (workloadID : String) :
    Option Deployment :=
  match Split (TrimSpace workloadID) ':' with
  | ns :: workloadName :: _ =>
    if ns ∈ namespaces then
      match deploymentGet env w ns workloadName with
      | .ok d => if d.DeletionTimestamp = none then some d else none
      | .error _ => none
    else none
  | _ => none

/-- The key set built from the deployments the tokens resolve to. -/
def resolvedTargets (env : Env) (w : World) (namespaces : List String) :
    List String → List String → List String
  | [], acc => acc
  | workloadID :: rest, acc =>
    match resolveToken env w namespaces workloadID with
    | some d => resolvedTargets env w namespaces rest (keySetAdd acc (nsName d.Namespace d.Name))
    | none => resolvedTargets env w namespaces rest acc

/-- A lifecycle event of a service, with the service object it is delivered with. -/
inductive Event where
  | create (obj : Service)
  | updated (obj : Service)
  | remove (obj : Service)
  deriving DecidableEq, Repr

/-- The index key `<namespace>:<name>` of the service of the event. -/
def Event.key : Event → String
  | .create obj => nsName obj.Namespace obj.Name
  | .updated obj => nsName obj.Namespace obj.Name
  | .remove obj => nsName obj.Namespace obj.Name

/-- The handler the lifecycle runs for the event. -/
def handle (env : Env) (w : World) : Event → Reconciled
  | .create obj => Create env w obj
  | .updated obj => Updated env w obj
  | .remove obj => Remove w obj

/-- The state after a sequence of events each of which is handled without error, each
on the state left by the one before. -/
def handleAll (env : Env) : World → List Event → Option World
  | w, [] => some w
  | w, ev :: rest =>
    match (handle env w ev).result with
    | .ok _ => handleAll env (handle env w ev).world rest
    | _ => none

/-- The service object carries the target-workload annotation. -/
def carriesAnnotation (obj : Service) : Bool :=
  match obj.Annotations with
  | none => false
  | some annotations => (annotations.get WorkloadAnnotation).isSome

/-- The most recent event for the key in the sequence (oldest first) is a Create or
Updated of a service object that carries the annotation. -/
def lastEventBinds (key : String) (events : List Event) : Bool :=
  events.foldl (fun bound ev =>
    if ev.key = key then
      match ev with
      | .create obj => carriesAnnotation obj
      | .updated obj => carriesAnnotation obj
      | .remove _ => false
    else bound) false

/-- One event of the sequence seen from the key: a Remove for the key clears it, a
Create or Updated for the key with the annotation binds it, anything else leaves it. -/
def bindStep (key : String) (bound : Bool) (ev : Event) : Bool :=
  if ev.key = key then
    match ev with
    | .create obj => bound || carriesAnnotation obj
    | .updated obj => bound || carriesAnnotation obj
    | .remove _ => false
  else bound

/-- Since the last Remove for the key (or since the start), the sequence (oldest
first) holds a Create or Updated for the key of a service object that carries the
annotation. -/
def boundSinceRemove (key : String) (events : List Event) : Bool :=
  events.foldl (bindStep key) false

/-- The token is well formed (at least a namespace and a name around a `:`) and does
not resolve: its namespace is not visible to the project, or its deployment is not
found, or the deployment is being deleted. -/
def unresolvable (env : Env) (w : World) (namespaces : List String) (workloadID : String) :
    Bool :=
  decide (2 ≤ (Split (TrimSpace workloadID) ':').length) &&
    (resolveToken env w namespaces workloadID).isNone

/-- The service's selector after `reconcilePods` has added the synthetic entry. -/
def selectorAfter (obj : Service) : StrMap := (withSelector obj).Selector.getD []

/-- The value the selector holds for the synthetic key after `reconcilePods`: the
value already there, or `"true"` when the key was absent. -/
def syntheticValue (obj : Service) : String :=
  ((obj.Selector.getD []).get (getServiceSelector obj)).getD "true"

end workloadservice

/-- The pod is in the deployment's namespace and carries every pair of the
deployment's `matchLabels`: it is listed by `podLister.List` for the deployment. -/
def matchedBy (d : Deployment) (p : Pod) : Bool :=
  p.Namespace == d.Namespace &&
    match d.Selector with
    | some ls => selectorMatches ls.MatchLabels p.Labels
    | none => false

/-- No character of the name is `:` or white space, as in every Kubernetes object
name. -/
def ValidName (s : String) : Prop := ∀ c ∈ s.data, c ≠ ':' ∧ isSpace c = false

instance (s : String) : Decidable (ValidName s) :=
  inferInstanceAs (Decidable (∀ c ∈ s.data, c ≠ ':' ∧ isSpace c = false))

/-- The service carries the DNS-record annotation and one of its records, split on
`,` and trimmed, is the endpoint's `<namespace>:<name>`. -/
def listsEndpoint (env : Env) (obj : Endpoints) (svc : Service) : Bool :=
  match svc.Annotations with
  | none => false
  | some annotations =>
    match annotations.get env.DNSAnnotation with
    | none => false
    | some value =>
      (Split value ',').any fun record => TrimSpace record == nsName obj.Namespace obj.Name

/-- The pod `q` is the pod `p` with labels added, or overwritten under the given keys
only: same namespace and name, every label key of `p` is a label key of `q`, and every
label outside the given keys has the value it has in `p`. -/
def Extends (keys : List String) (p q : Pod) : Prop :=
  q.Namespace = p.Namespace ∧ q.Name = p.Name ∧
  (∀ k, (getLabel p.Labels k).isSome = true → (getLabel q.Labels k).isSome = true) ∧
  (∀ k, k ∉ keys → getLabel q.Labels k = getLabel p.Labels k)

/-- Every pod of the later store extends a pod of the earlier store. -/
def StoreExtends (keys : List String) (S S' : List Pod) : Prop :=
  ∀ q ∈ S', ∃ p ∈ S, Extends keys p q

/-- The operations of the three reconcilers. -/
inductive Operation where
  | serviceCreate (obj : Service)
  | serviceUpdated (obj : Service)
  | serviceRemove (obj : Service)
  | podSync (key : String) (obj : Option Pod)
  | endpointCreate (obj : Endpoints)
  | endpointUpdated (obj : Endpoints)
  | endpointRemove (obj : Endpoints)

/-- The state an operation leaves, whether it returns normally, returns an error or
panics. -/
def Operation.run (env : Env) (w : World) : Operation → World
  | .serviceCreate obj => (workloadservice.Create env w obj).world
  | .serviceUpdated obj => (workloadservice.Updated env w obj).world
  | .serviceRemove obj => (workloadservice.Remove w obj).world
  | .podSync key obj => (podtoworkload.sync env w key obj).2
  | .endpointCreate obj => (endpoint.Create env w obj).2
  | .endpointUpdated obj => (endpoint.Updated env w obj).2
  | .endpointRemove obj => (endpoint.Remove env w obj).2

/-- The keys of the selector of the service the operation reconciles, the synthetic
key included; no key for the operations that reconcile no service. -/
def Operation.selectorKeys : Operation → List String
  | .serviceCreate obj => (workloadservice.selectorAfter obj).map Prod.fst
  | .serviceUpdated obj => (workloadservice.selectorAfter obj).map Prod.fst
  | _ => []

/-- The pod store holds one pod per namespace and name. -/
def PodsUnique (S : List Pod) : Prop :=
  ∀ p ∈ S, ∀ q ∈ S, p.Namespace = q.Namespace → p.Name = q.Name → p = q

instance (S : List Pod) : Decidable (PodsUnique S) :=
  inferInstanceAs (Decidable
    (∀ p ∈ S, ∀ q ∈ S, p.Namespace = q.Namespace → p.Name = q.Name → p = q))

/-- The pod carries every key/value pair of the selector. -/
def Labelled (selector : StrMap) (p : Pod) : Prop := selectorMatches selector p.Labels = true

/-- Every pod of the later store is a pod of the earlier store or carries the selector. -/
def PodsAdvance (selector : StrMap) (S S' : List Pod) : Prop :=
  ∀ p' ∈ S', p' ∈ S ∨ Labelled selector p'

/-- The parts of the state no pod write touches are the same. -/
def Frame (w w' : World) : Prop :=
  w'.deployments = w.deployments ∧ w'.services = w.services ∧ w'.index = w.index ∧
  w'.queue = w.queue

/-! # Theorems -/

/-! ## Maps and the index -/

theorem StrMap.get_set_self (m : StrMap) (k v : String) : (m.set k v).get k = some v := by
  induction m with
  | nil => simp [StrMap.set, StrMap.get]
  | cons e rest ih =>
    obtain ⟨k', v'⟩ := e
    by_cases h : k' = k
    · simp [StrMap.set, StrMap.get, h]
    · simp [StrMap.set, StrMap.get, h, ih]

theorem StrMap.get_set_ne (m : StrMap) (k v k₂ : String) (hne : k₂ ≠ k) :
    (m.set k v).get k₂ = m.get k₂ := by
  induction m with
  | nil => simp [StrMap.set, StrMap.get, Ne.symm hne]
  | cons e rest ih =>
    obtain ⟨k', v'⟩ := e
    by_cases h : k' = k
    · subst h
      simp [StrMap.set, StrMap.get, Ne.symm hne]
    · by_cases h₂ : k' = k₂
      · subst h₂
        simp [StrMap.set, StrMap.get, hne]
      · simp [StrMap.set, StrMap.get, h, h₂, ih]

theorem StrMap.get_isSome_of_mem (m : StrMap) (kv : String × String) (h : kv ∈ m) :
    ∃ v, m.get kv.1 = some v := by
  induction m with
  | nil => simp at h
  | cons e rest ih =>
    obtain ⟨k', v'⟩ := e
    by_cases hk : k' = kv.1
    · exact ⟨v', by simp [StrMap.get, hk]⟩
    · rcases List.mem_cons.1 h with h | h
      · exact absurd (by rw [h]) hk
      · obtain ⟨v, hv⟩ := ih h
        exact ⟨v, by simp [StrMap.get, hk, hv]⟩

theorem indexLoad_store_self (idx : List (String × List String)) (k : String)
    (v : List String) : indexLoad (indexStore idx k v) k = some v := by
  induction idx with
  | nil => simp [indexStore, indexLoad]
  | cons e rest ih =>
    obtain ⟨k', v'⟩ := e
    by_cases h : k' = k
    · simp [indexStore, indexLoad, h]
    · simp [indexStore, indexLoad, h, ih]

theorem indexLoad_filter_ne (idx : List (String × List String)) (k k₂ : String)
    (hne : k₂ ≠ k) : indexLoad (idx.filter fun e => e.1 != k) k₂ = indexLoad idx k₂ := by
  induction idx with
  | nil => rfl
  | cons e rest ih =>
    obtain ⟨k', v'⟩ := e
    by_cases h : k' = k
    · subst h
      simp [List.filter_cons, indexLoad, Ne.symm hne, ih]
    · by_cases h₂ : k' = k₂
      · subst h₂
        simp [List.filter_cons, indexLoad, hne]
      · simp [List.filter_cons, indexLoad, h, h₂, ih]

theorem indexLoad_filter_self (idx : List (String × List String)) (k : String) :
    indexLoad (idx.filter fun e => e.1 != k) k = none := by
  induction idx with
  | nil => rfl
  | cons e rest ih =>
    obtain ⟨k', v'⟩ := e
    by_cases h : k' = k
    · simp [List.filter_cons, h, ih]
    · simp [List.filter_cons, indexLoad, h, ih]

theorem indexLoad_store_ne (idx : List (String × List String)) (k k₂ : String)
    (v : List String) (hne : k₂ ≠ k) :
    indexLoad (indexStore idx k v) k₂ = indexLoad idx k₂ := by
  induction idx with
  | nil => simp [indexStore, indexLoad, Ne.symm hne]
  | cons e rest ih =>
    obtain ⟨k', v'⟩ := e
    by_cases h : k' = k
    · subst h
      simp [indexStore, indexLoad, Ne.symm hne, indexLoad_filter_ne _ _ _ hne]
    · by_cases h₂ : k' = k₂
      · subst h₂
        simp [indexStore, indexLoad, hne]
      · simp [indexStore, indexLoad, h, h₂, ih]

theorem indexStore_idem (idx : List (String × List String)) (k : String) (v : List String) :
    indexStore (indexStore idx k v) k v = indexStore idx k v := by
  induction idx with
  | nil => simp [indexStore]
  | cons e rest ih =>
    obtain ⟨k', v'⟩ := e
    by_cases h : k' = k
    · simp [indexStore, h, List.filter_filter]
    · simp [indexStore, h, ih]

theorem mem_keySetAdd (keys : List String) (k x : String) :
    x ∈ keySetAdd keys k ↔ x ∈ keys ∨ x = k := by
  unfold keySetAdd
  split
  · constructor
    · exact Or.inl
    · rintro (h | h)
      · exact h
      · subst h; assumption
  · simp

/-! ## Writing labels -/

theorem frame_same (w : World) : Frame w w := ⟨rfl, rfl, rfl, rfl⟩

theorem frame_chain {a b c : World} (h₁ : Frame a b) (h₂ : Frame b c) : Frame a c :=
  ⟨h₂.1.trans h₁.1, h₂.2.1.trans h₁.2.1, h₂.2.2.1.trans h₁.2.2.1, h₂.2.2.2.trans h₁.2.2.2⟩

theorem podsAdvance_same (selector : StrMap) (S : List Pod) : PodsAdvance selector S S :=
  fun _ h => Or.inl h

theorem podsAdvance_chain {selector : StrMap} {a b c : List Pod}
    (h₁ : PodsAdvance selector a b) (h₂ : PodsAdvance selector b c) :
    PodsAdvance selector a c := by
  intro p hp
  rcases h₂ p hp with h | h
  · exact h₁ p h
  · exact Or.inr h

theorem StrMap.setAll_get_of_not_mem (src m : StrMap) (k : String)
    (hk : k ∉ src.map Prod.fst) : (m.setAll src).get k = m.get k := by
  induction src generalizing m with
  | nil => rfl
  | cons e rest ih =>
    simp only [List.map_cons, List.mem_cons, not_or] at hk
    have := ih (m.set e.1 e.2) hk.2
    simp only [StrMap.setAll, List.foldl_cons] at this ⊢
    rw [this, StrMap.get_set_ne _ _ _ _ hk.1]

theorem StrMap.setAll_get_of_mem (src m : StrMap) (hwf : src.WF) (kv : String × String)
    (hkv : kv ∈ src) : (m.setAll src).get kv.1 = some kv.2 := by
  induction src generalizing m with
  | nil => simp at hkv
  | cons e rest ih =>
    have hwf' : (e.1 ∉ rest.map Prod.fst) ∧ StrMap.WF rest := by
      simpa [StrMap.WF] using hwf
    rcases List.mem_cons.1 hkv with h | h
    · subst h
      have := StrMap.setAll_get_of_not_mem rest (m.set kv.1 kv.2) kv.1 hwf'.1
      simp only [StrMap.setAll, List.foldl_cons] at this ⊢
      rw [this, StrMap.get_set_self]
    · have := ih (m.set e.1 e.2) hwf'.2 h
      simpa only [StrMap.setAll, List.foldl_cons] using this

theorem workloadservice.assignLabels_some (m selector : StrMap) :
    workloadservice.assignLabels (some m) selector = .ok (some (m.setAll selector)) := by
  induction selector generalizing m with
  | nil => rfl
  | cons e rest ih =>
    obtain ⟨k, v⟩ := e
    simp only [workloadservice.assignLabels, StrMap.setAll, List.foldl_cons]
    exact ih _

theorem workloadservice.assignLabels_labelled (labels labels' : Option StrMap)
    (selector : StrMap) (hwf : selector.WF)
    (h : workloadservice.assignLabels labels selector = .ok labels') :
    selectorMatches selector labels' = true := by
  cases labels with
  | none =>
    cases selector with
    | nil => rfl
    | cons e rest => simp [workloadservice.assignLabels] at h
  | some m =>
    rw [workloadservice.assignLabels_some] at h
    injection h with h
    subst h
    simp only [selectorMatches, List.all_eq_true, beq_iff_eq, getLabel]
    intro kv hkv
    exact StrMap.setAll_get_of_mem selector m hwf kv hkv

theorem podUpdate_cases (env : Env) (w w' : World) (q : Pod) (r : Except Err Unit)
    (h : podUpdate env w q = (r, w')) :
    ((∃ e, r = .error e) ∧ w' = { w with updateCalls := w.updateCalls ++ [q] }) ∨
      (r = .ok () ∧ env.fault (.podUpdate q.Namespace q.Name) = none ∧
        w' = { w with updateCalls := w.updateCalls ++ [q], pods := replacePod w.pods q }) := by
  simp only [podUpdate] at h
  cases hf : env.fault (Call.podUpdate q.Namespace q.Name) with
  | some e =>
    simp only [hf, Prod.mk.injEq] at h
    exact Or.inl ⟨⟨e, h.1.symm⟩, h.2.symm⟩
  | none =>
    simp only [hf] at h
    split at h
    · simp only [Prod.mk.injEq] at h
      exact Or.inr ⟨h.1.symm, rfl, h.2.symm⟩
    · simp only [Prod.mk.injEq] at h
      exact Or.inl ⟨⟨_, h.1.symm⟩, h.2.symm⟩

theorem podUpdate_frame (env : Env) (w w' : World) (q : Pod) (r : Except Err Unit)
    (h : podUpdate env w q = (r, w')) : Frame w w' := by
  rcases podUpdate_cases env w w' q r h with ⟨_, rfl⟩ | ⟨_, _, rfl⟩ <;>
    exact ⟨rfl, rfl, rfl, rfl⟩

theorem podUpdate_calls (env : Env) (w w' : World) (q : Pod) (r : Except Err Unit)
    (h : podUpdate env w q = (r, w')) : w'.updateCalls = w.updateCalls ++ [q] := by
  rcases podUpdate_cases env w w' q r h with ⟨_, rfl⟩ | ⟨_, _, rfl⟩ <;> rfl

theorem replacePod_advance (selector : StrMap) (S : List Pod) (q : Pod)
    (hq : Labelled selector q) : PodsAdvance selector S (replacePod S q) := by
  intro p' hp'
  simp only [replacePod, List.mem_map] at hp'
  obtain ⟨p, hp, rfl⟩ := hp'
  split
  · exact Or.inr hq
  · exact Or.inl hp

theorem replacePod_key (S : List Pod) (q p' : Pod) (hp' : p' ∈ replacePod S q)
    (hk : p'.hasKey q.Namespace q.Name = true) : p' = q := by
  simp only [replacePod, List.mem_map] at hp'
  obtain ⟨p, _, rfl⟩ := hp'
  by_cases hh : p.hasKey q.Namespace q.Name = true
  · simp [hh]
  · simp only [hh] at hk
    exact absurd hk hh

theorem workloadservice.updateLabelled_frame (env : Env) (selector : StrMap)
    (groomed : String) (pods : List Pod) (w w' : World) (r : Res Unit)
    (h : workloadservice.updateLabelled env selector groomed pods w = (r, w')) :
    Frame w w' := by
  induction pods generalizing w with
  | nil =>
    simp only [workloadservice.updateLabelled, Prod.mk.injEq] at h
    rw [← h.2]; exact frame_same w
  | cons pod rest ih =>
    simp only [workloadservice.updateLabelled] at h
    split at h
    · split at h
      · rename_i hu
        exact frame_chain (podUpdate_frame _ _ _ _ _ hu) (ih _ h)
      · rename_i hu
        simp only [Prod.mk.injEq] at h
        rw [← h.2]; exact podUpdate_frame _ _ _ _ _ hu
    · simp only [Prod.mk.injEq] at h
      rw [← h.2]; exact frame_same w
    · simp only [Prod.mk.injEq] at h
      rw [← h.2]; exact frame_same w

theorem workloadservice.updateLabelled_advance (env : Env) (selector : StrMap)
    (hwf : selector.WF) (groomed : String) (pods : List Pod) (w w' : World) (r : Res Unit)
    (h : workloadservice.updateLabelled env selector groomed pods w = (r, w')) :
    PodsAdvance selector w.pods w'.pods := by
  induction pods generalizing w with
  | nil =>
    simp only [workloadservice.updateLabelled, Prod.mk.injEq] at h
    rw [← h.2]; exact podsAdvance_same _ _
  | cons pod rest ih =>
    simp only [workloadservice.updateLabelled] at h
    split at h
    · rename_i labels ha
      have hl : Labelled selector { pod with Labels := labels } :=
        workloadservice.assignLabels_labelled _ _ _ hwf ha
      split at h
      · rename_i u w₁ hu
        have h₁ : PodsAdvance selector w.pods w₁.pods := by
          rcases podUpdate_cases _ _ _ _ _ hu with ⟨_, rfl⟩ | ⟨_, _, rfl⟩
          · exact podsAdvance_same _ _
          · exact replacePod_advance _ _ _ hl
        exact podsAdvance_chain h₁ (ih _ h)
      · rename_i e w₁ hu
        simp only [Prod.mk.injEq] at h
        rw [← h.2]
        rcases podUpdate_cases _ _ _ _ _ hu with ⟨_, rfl⟩ | ⟨_, _, rfl⟩
        · exact podsAdvance_same _ _
        · exact replacePod_advance _ _ _ hl
    · simp only [Prod.mk.injEq] at h
      rw [← h.2]; exact podsAdvance_same _ _
    · simp only [Prod.mk.injEq] at h
      rw [← h.2]; exact podsAdvance_same _ _

theorem workloadservice.updateLabelled_written (env : Env) (selector : StrMap)
    (hwf : selector.WF) (groomed : String) (pods : List Pod) (w w' : World) (u : Unit)
    (h : workloadservice.updateLabelled env selector groomed pods w = (.ok u, w')) :
    ∀ q ∈ pods, ∀ p' ∈ w'.pods, p'.hasKey q.Namespace q.Name = true →
      Labelled selector p' := by
  induction pods generalizing w with
  | nil => intro q hq; simp at hq
  | cons pod rest ih =>
    simp only [workloadservice.updateLabelled] at h
    split at h
    · rename_i labels ha
      have hl : Labelled selector { pod with Labels := labels } :=
        workloadservice.assignLabels_labelled _ _ _ hwf ha
      split at h
      · rename_i u₁ w₁ hu
        intro q hq p' hp' hk
        rcases List.mem_cons.1 hq with rfl | hq
        · rcases workloadservice.updateLabelled_advance env selector hwf groomed rest w₁ w' _ h
            p' hp' with h₁ | h₁
          · rcases podUpdate_cases _ _ _ _ _ hu with ⟨⟨e, he⟩, _⟩ | ⟨_, _, rfl⟩
            · cases he
            · have := replacePod_key w.pods { q with Labels := labels } p' h₁ hk
              rw [this]; exact hl
          · exact h₁
        · exact ih _ h q hq p' hp' hk
      · simp only [Prod.mk.injEq] at h
        exact absurd h.1 (by simp)
    · simp only [Prod.mk.injEq] at h
      exact absurd h.1 (by simp)
    · simp only [Prod.mk.injEq] at h
      exact absurd h.1 (by simp)

/-! ## One annotation token -/

theorem workloadservice.collectPods_mem_of (selector : StrMap) (pods : List Pod) (p : Pod)
    (hp : p ∈ pods) (hd : p.DeletionTimestamp = none) (hn : ¬ Labelled selector p) :
    p ∈ workloadservice.collectPods selector pods := by
  simp only [workloadservice.collectPods, List.mem_flatMap]
  refine ⟨p, hp, ?_⟩
  simp only [hd, List.mem_map, List.mem_filter]
  simp only [Labelled, selectorMatches, List.all_eq_true, not_forall] at hn
  obtain ⟨kv, hkv, hne⟩ := hn
  exact ⟨kv, ⟨hkv, by simpa using hne⟩, trivial⟩

theorem workloadservice.collectPods_eq_nil (selector : StrMap) (pods : List Pod)
    (h : ∀ p ∈ pods, p.DeletionTimestamp = none → Labelled selector p) :
    workloadservice.collectPods selector pods = [] := by
  simp only [workloadservice.collectPods, List.flatMap_eq_nil_iff]
  intro p hp
  cases hd : p.DeletionTimestamp with
  | some t => rfl
  | none =>
    have hl := h p hp hd
    simp only [Labelled, selectorMatches, List.all_eq_true] at hl
    simp only [List.map_eq_nil_iff, List.filter_eq_nil_iff]
    intro kv hkv
    simpa using hl kv hkv

theorem podList_ok (env : Env) (w : World) (ns : String) (set : StrMap) (pods : List Pod)
    (h : podList env w ns set = .ok pods) :
    env.fault (.podList ns) = none ∧
      pods = w.pods.filter fun p => p.Namespace == ns && selectorMatches set p.Labels := by
  unfold podList at h
  split at h
  · cases h
  · rename_i hf
    injection h with h
    exact ⟨hf, h.symm⟩

theorem workloadservice.labelTargetPods_frame (env : Env) (selector : StrMap)
    (groomed : String) (d : Deployment) (ptu : List Pod) (targets : List String)
    (w w' : World) (r : Res (List Pod × List String))
    (h : workloadservice.labelTargetPods env selector groomed d ptu targets w = (r, w')) :
    Frame w w' := by
  simp only [workloadservice.labelTargetPods] at h
  split at h
  · simp only [Prod.mk.injEq] at h
    rw [← h.2]; exact frame_same w
  · split at h
    · simp only [Prod.mk.injEq] at h
      rw [← h.2]; exact frame_same w
    · split at h <;> rename_i hu <;> simp only [Prod.mk.injEq] at h <;> rw [← h.2] <;>
        exact workloadservice.updateLabelled_frame _ _ _ _ _ _ _ hu

theorem workloadservice.labelTargetPods_advance (env : Env) (selector : StrMap)
    (hwf : selector.WF) (groomed : String) (d : Deployment) (ptu : List Pod)
    (targets : List String) (w w' : World) (r : Res (List Pod × List String))
    (h : workloadservice.labelTargetPods env selector groomed d ptu targets w = (r, w')) :
    PodsAdvance selector w.pods w'.pods := by
  simp only [workloadservice.labelTargetPods] at h
  split at h
  · simp only [Prod.mk.injEq] at h
    rw [← h.2]; exact podsAdvance_same _ _
  · split at h
    · simp only [Prod.mk.injEq] at h
      rw [← h.2]; exact podsAdvance_same _ _
    · split at h <;> rename_i hu <;> simp only [Prod.mk.injEq] at h <;> rw [← h.2] <;>
        exact workloadservice.updateLabelled_advance _ _ hwf _ _ _ _ _ hu

theorem workloadservice.labelTargetPods_ok (env : Env) (selector : StrMap)
    (hwf : selector.WF) (groomed : String) (d : Deployment) (ptu ptu' : List Pod)
    (targets targets' : List String) (w w' : World)
    (h : workloadservice.labelTargetPods env selector groomed d ptu targets w
      = (.ok (ptu', targets'), w')) :
    ∃ ls, d.Selector = some ls ∧ env.fault (.podList d.Namespace) = none ∧
      targets' = keySetAdd targets (nsName d.Namespace d.Name) ∧
      ∀ p' ∈ w'.pods, p'.DeletionTimestamp = none → p'.Namespace = d.Namespace →
        selectorMatches ls.MatchLabels p'.Labels = true → Labelled selector p' := by
  simp only [workloadservice.labelTargetPods] at h
  split at h
  · simp only [Prod.mk.injEq] at h
    exact absurd h.1 (by simp)
  · rename_i ls hls
    split at h
    · simp only [Prod.mk.injEq] at h
      exact absurd h.1 (by simp)
    · rename_i pods hpl
      obtain ⟨hf, hpods⟩ := podList_ok _ _ _ _ _ hpl
      split at h
      · rename_i u w₁ hu
        simp only [Prod.mk.injEq, Res.ok.injEq] at h
        obtain ⟨⟨_, ht⟩, hw⟩ := h
        subst hw
        refine ⟨ls, hls, hf, ht.symm, ?_⟩
        intro p' hp' hd hns hm
        by_cases hl : Labelled selector p'
        · exact hl
        · rcases workloadservice.updateLabelled_advance _ _ hwf _ _ _ _ _ hu p' hp' with h₁ | h₁
          · have hin : p' ∈ pods := by
              rw [hpods]
              simp only [List.mem_filter, Bool.and_eq_true, beq_iff_eq]
              exact ⟨h₁, hns, hm⟩
            have hc := workloadservice.collectPods_mem_of selector pods p' hin hd hl
            exact workloadservice.updateLabelled_written _ _ hwf _ _ _ _ _ hu p'
              (List.mem_append_right _ hc) p' hp' (by simp [Pod.hasKey])
          · exact h₁
      · simp only [Prod.mk.injEq] at h
        exact absurd h.1 (by simp)
      · simp only [Prod.mk.injEq] at h
        exact absurd h.1 (by simp)

theorem workloadservice.labelTargetPods_settled (env : Env) (selector : StrMap)
    (groomed : String) (d : Deployment) (ls : LabelSelector) (targets : List String)
    (w : World) (hls : d.Selector = some ls) (hf : env.fault (.podList d.Namespace) = none)
    (hall : ∀ p ∈ w.pods, p.DeletionTimestamp = none → p.Namespace = d.Namespace →
      selectorMatches ls.MatchLabels p.Labels = true → Labelled selector p) :
    workloadservice.labelTargetPods env selector groomed d [] targets w
      = (.ok ([], keySetAdd targets (nsName d.Namespace d.Name)), w) := by
  have hc : workloadservice.collectPods selector
      (w.pods.filter fun p => p.Namespace == d.Namespace &&
        selectorMatches ls.MatchLabels p.Labels) = [] := by
    apply workloadservice.collectPods_eq_nil
    intro p hp hd
    simp only [List.mem_filter, Bool.and_eq_true, beq_iff_eq] at hp
    exact hall p hp.1 hd hp.2.1 hp.2.2
  simp [workloadservice.labelTargetPods, hls, podList, hf, hc, workloadservice.updateLabelled]

theorem workloadservice.tokenStep_eq (env : Env) (selector : StrMap)
    (namespaces : List String) (tok : String) (ptu : List Pod) (targets : List String)
    (w : World) :
    workloadservice.tokenStep env selector namespaces tok ptu targets w =
      if (Split (TrimSpace tok) ':').length < 2 then
        (.error (.wrongFormat (TrimSpace tok)), w)
      else
        match workloadservice.resolveToken env w namespaces tok with
        | some d => workloadservice.labelTargetPods env selector (TrimSpace tok) d ptu targets w
        | none => (.ok (ptu, targets), w) := by
  simp only [workloadservice.tokenStep, workloadservice.resolveToken]
  cases hs : Split (TrimSpace tok) ':' with
  | nil => simp
  | cons a t =>
    cases t with
    | nil => simp
    | cons b t' =>
      have hlen : ¬ ((a :: b :: t').length < 2) := by simp
      rw [if_neg hlen]
      by_cases hm : a ∈ namespaces
      · simp only [hm, if_true]
        cases hg : deploymentGet env w a b with
        | error e => rfl
        | ok d =>
          cases hd : d.DeletionTimestamp with
          | none => simp [hd]
          | some t => simp [hd]
      · simp only [hm, if_false]

theorem deploymentGet_frame (env : Env) (w w' : World) (h : Frame w w') (ns name : String) :
    deploymentGet env w' ns name = deploymentGet env w ns name := by
  simp only [deploymentGet, h.1]

theorem workloadservice.resolveToken_frame (env : Env) (w w' : World) (h : Frame w w')
    (namespaces : List String) (tok : String) :
    workloadservice.resolveToken env w' namespaces tok
      = workloadservice.resolveToken env w namespaces tok := by
  simp only [workloadservice.resolveToken, deploymentGet_frame env w w' h]

theorem workloadservice.resolvedTargets_frame (env : Env) (w w' : World) (h : Frame w w')
    (namespaces : List String) (toks : List String) (acc : List String) :
    workloadservice.resolvedTargets env w' namespaces toks acc
      = workloadservice.resolvedTargets env w namespaces toks acc := by
  induction toks generalizing acc with
  | nil => rfl
  | cons tok rest ih =>
    simp only [workloadservice.resolvedTargets,
      workloadservice.resolveToken_frame env w w' h, ih]

theorem workloadservice.tokenStep_frame (env : Env) (selector : StrMap)
    (namespaces : List String) (tok : String) (ptu : List Pod) (targets : List String)
    (w w' : World) (r : Res (List Pod × List String))
    (h : workloadservice.tokenStep env selector namespaces tok ptu targets w = (r, w')) :
    Frame w w' := by
  rw [workloadservice.tokenStep_eq] at h
  split at h
  · simp only [Prod.mk.injEq] at h
    rw [← h.2]; exact frame_same w
  · split at h
    · exact workloadservice.labelTargetPods_frame _ _ _ _ _ _ _ _ _ h
    · simp only [Prod.mk.injEq] at h
      rw [← h.2]; exact frame_same w

theorem workloadservice.tokenStep_advance (env : Env) (selector : StrMap)
    (hwf : selector.WF) (namespaces : List String) (tok : String) (ptu : List Pod)
    (targets : List String) (w w' : World) (r : Res (List Pod × List String))
    (h : workloadservice.tokenStep env selector namespaces tok ptu targets w = (r, w')) :
    PodsAdvance selector w.pods w'.pods := by
  rw [workloadservice.tokenStep_eq] at h
  split at h
  · simp only [Prod.mk.injEq] at h
    rw [← h.2]; exact podsAdvance_same _ _
  · split at h
    · exact workloadservice.labelTargetPods_advance _ _ hwf _ _ _ _ _ _ _ h
    · simp only [Prod.mk.injEq] at h
      rw [← h.2]; exact podsAdvance_same _ _

/-! ## The loop over the tokens -/

theorem workloadservice.updatePodsLoop_frame (env : Env) (selector : StrMap)
    (namespaces : List String) (toks : List String) (ptu : List Pod)
    (targets : List String) (w w' : World) (r : Res (List Pod × List String))
    (h : workloadservice.updatePodsLoop env selector namespaces toks ptu targets w = (r, w')) :
    Frame w w' := by
  induction toks generalizing ptu targets w with
  | nil =>
    simp only [workloadservice.updatePodsLoop, Prod.mk.injEq] at h
    rw [← h.2]; exact frame_same w
  | cons tok rest ih =>
    simp only [workloadservice.updatePodsLoop] at h
    split at h
    · rename_i hs
      exact frame_chain (workloadservice.tokenStep_frame _ _ _ _ _ _ _ _ _ hs) (ih _ _ _ h)
    · rename_i hs
      simp only [Prod.mk.injEq] at h
      rw [← h.2]; exact workloadservice.tokenStep_frame _ _ _ _ _ _ _ _ _ hs
    · rename_i hs
      simp only [Prod.mk.injEq] at h
      rw [← h.2]; exact workloadservice.tokenStep_frame _ _ _ _ _ _ _ _ _ hs

theorem workloadservice.updatePodsLoop_advance (env : Env) (selector : StrMap)
    (hwf : selector.WF) (namespaces : List String) (toks : List String) (ptu : List Pod)
    (targets : List String) (w w' : World) (r : Res (List Pod × List String))
    (h : workloadservice.updatePodsLoop env selector namespaces toks ptu targets w = (r, w')) :
    PodsAdvance selector w.pods w'.pods := by
  induction toks generalizing ptu targets w with
  | nil =>
    simp only [workloadservice.updatePodsLoop, Prod.mk.injEq] at h
    rw [← h.2]; exact podsAdvance_same _ _
  | cons tok rest ih =>
    simp only [workloadservice.updatePodsLoop] at h
    split at h
    · rename_i hs
      exact podsAdvance_chain (workloadservice.tokenStep_advance _ _ hwf _ _ _ _ _ _ _ hs)
        (ih _ _ _ h)
    · rename_i hs
      simp only [Prod.mk.injEq] at h
      rw [← h.2]; exact workloadservice.tokenStep_advance _ _ hwf _ _ _ _ _ _ _ hs
    · rename_i hs
      simp only [Prod.mk.injEq] at h
      rw [← h.2]; exact workloadservice.tokenStep_advance _ _ hwf _ _ _ _ _ _ _ hs

/-- What a successful run of the loop guarantees for every token: it has at least two
`:`-separated pieces, and when it resolves to a deployment, that deployment has a
selector, its pod list did not fail, and every pod of the final store that is not
terminating and matches its `matchLabels` carries the service selector. -/
theorem workloadservice.updatePodsLoop_ok (env : Env) (selector : StrMap)
    (hwf : selector.WF) (namespaces : List String) (toks : List String)
    (ptu ptu' : List Pod) (targets targets' : List String) (w w' : World)
    (h : workloadservice.updatePodsLoop env selector namespaces toks ptu targets w
      = (.ok (ptu', targets'), w')) :
    targets' = workloadservice.resolvedTargets env w namespaces toks targets ∧
    ∀ tok ∈ toks, 2 ≤ (Split (TrimSpace tok) ':').length ∧
      ∀ d, workloadservice.resolveToken env w namespaces tok = some d →
        ∃ ls, d.Selector = some ls ∧ env.fault (.podList d.Namespace) = none ∧
          ∀ p' ∈ w'.pods, p'.DeletionTimestamp = none → p'.Namespace = d.Namespace →
            selectorMatches ls.MatchLabels p'.Labels = true → Labelled selector p' := by
  induction toks generalizing ptu targets w with
  | nil =>
    simp only [workloadservice.updatePodsLoop, Prod.mk.injEq, Res.ok.injEq] at h
    exact ⟨h.1.2.symm, by simp⟩
  | cons tok rest ih =>
    simp only [workloadservice.updatePodsLoop] at h
    split at h
    · rename_i ptu₁ targets₁ w₁ hs
      have hfr := workloadservice.tokenStep_frame _ _ _ _ _ _ _ _ _ hs
      obtain ⟨ht, hrest⟩ := ih _ _ _ h
      have hadv := workloadservice.updatePodsLoop_advance _ _ hwf _ _ _ _ _ _ _ h
      rw [workloadservice.tokenStep_eq] at hs
      split at hs
      · simp only [Prod.mk.injEq] at hs
        exact absurd hs.1 (by simp)
      · rename_i hlen
        have hhead : targets₁ =
            (match workloadservice.resolveToken env w namespaces tok with
              | some d => keySetAdd targets (nsName d.Namespace d.Name)
              | none => targets) ∧
            ∀ d, workloadservice.resolveToken env w namespaces tok = some d →
              ∃ ls, d.Selector = some ls ∧ env.fault (.podList d.Namespace) = none ∧
                ∀ p' ∈ w₁.pods, p'.DeletionTimestamp = none → p'.Namespace = d.Namespace →
                  selectorMatches ls.MatchLabels p'.Labels = true →
                    Labelled selector p' := by
          split at hs
          · rename_i d hd
            obtain ⟨ls, h₁, h₂, h₃, h₄⟩ :=
              workloadservice.labelTargetPods_ok _ _ hwf _ _ _ _ _ _ _ _ hs
            refine ⟨h₃, ?_⟩
            intro d' hd'
            rw [hd] at hd'
            injection hd' with hd'
            subst hd'
            exact ⟨ls, h₁, h₂, h₄⟩
          · rename_i hd
            simp only [Prod.mk.injEq, Res.ok.injEq] at hs
            refine ⟨hs.1.2.symm, ?_⟩
            intro d' hd'
            rw [hd] at hd'
            cases hd'
        refine ⟨?_, ?_⟩
        · rw [ht, workloadservice.resolvedTargets_frame env w w₁ hfr, hhead.1]
          simp only [workloadservice.resolvedTargets]
          cases workloadservice.resolveToken env w namespaces tok <;> rfl
        · intro tok' htok'
          rcases List.mem_cons.1 htok' with rfl | htok'
          · refine ⟨by omega, ?_⟩
            intro d hd
            obtain ⟨ls, h₁, h₂, h₃⟩ := hhead.2 d hd
            refine ⟨ls, h₁, h₂, ?_⟩
            intro p' hp' hdel hns hm
            rcases hadv p' hp' with h' | h'
            · exact h₃ p' h' hdel hns hm
            · exact h'
          · have := hrest tok' htok'
            rw [workloadservice.resolveToken_frame env w w₁ hfr] at this
            exact this
    · simp only [Prod.mk.injEq] at h
      exact absurd h.1 (by simp)
    · simp only [Prod.mk.injEq] at h
      exact absurd h.1 (by simp)

/-- On a store in which every resolved deployment's pods already carry the selector
the loop writes nothing and returns the resolved key set. -/
theorem workloadservice.updatePodsLoop_settled (env : Env) (selector : StrMap)
    (namespaces : List String) (toks : List String) (targets : List String) (w : World)
    (hall : ∀ tok ∈ toks, 2 ≤ (Split (TrimSpace tok) ':').length ∧
      ∀ d, workloadservice.resolveToken env w namespaces tok = some d →
        ∃ ls, d.Selector = some ls ∧ env.fault (.podList d.Namespace) = none ∧
          ∀ p' ∈ w.pods, p'.DeletionTimestamp = none → p'.Namespace = d.Namespace →
            selectorMatches ls.MatchLabels p'.Labels = true → Labelled selector p') :
    workloadservice.updatePodsLoop env selector namespaces toks [] targets w
      = (.ok ([], workloadservice.resolvedTargets env w namespaces toks targets), w) := by
  induction toks generalizing targets with
  | nil => rfl
  | cons tok rest ih =>
    obtain ⟨hlen, hres⟩ := hall tok (List.mem_cons_self _ _)
    have hrest := fun t ht => hall t (List.mem_cons_of_mem _ ht)
    simp only [workloadservice.updatePodsLoop, workloadservice.resolvedTargets]
    rw [workloadservice.tokenStep_eq, if_neg (by omega)]
    cases hd : workloadservice.resolveToken env w namespaces tok with
    | none => simp only; exact ih _ hrest
    | some d =>
      obtain ⟨ls, h₁, h₂, h₃⟩ := hres d hd
      simp only [workloadservice.labelTargetPods_settled env selector _ d ls targets w h₁ h₂ h₃]
      exact ih _ hrest

/-! ## `reconcilePods` -/

theorem StrMap.set_wf (m : StrMap) (k v : String) (h : m.WF) : (m.set k v).WF := by
  induction m with
  | nil => simp [StrMap.set, StrMap.WF]
  | cons e rest ih =>
    obtain ⟨k', v'⟩ := e
    have h' : k' ∉ rest.map Prod.fst ∧ StrMap.WF rest := by simpa [StrMap.WF] using h
    by_cases hk : k' = k
    · subst hk
      simpa [StrMap.set, StrMap.WF] using h
    · have hmem : ∀ x, x ∈ (StrMap.set rest k v).map Prod.fst → x ∈ rest.map Prod.fst ∨ x = k := by
        intro x
        clear ih h h'
        induction rest with
        | nil => simp [StrMap.set]
        | cons e' rest' ih' =>
          obtain ⟨a, b⟩ := e'
          by_cases ha : a = k
          · subst ha
            simp only [StrMap.set, if_true, List.map_cons, List.mem_cons]
            exact Or.inl
          · simp only [StrMap.set, ha, if_false, List.map_cons, List.mem_cons]
            rintro (h | h)
            · exact Or.inl (Or.inl h)
            · rcases ih' h with h | h
              · exact Or.inl (Or.inr h)
              · exact Or.inr h
      simp only [StrMap.set, hk, if_false, StrMap.WF, List.map_cons, List.nodup_cons]
      refine ⟨?_, ih h'.2⟩
      intro hin
      rcases hmem _ hin with h₁ | h₁
      · exact h'.1 h₁
      · exact hk h₁

theorem workloadservice.withSelector_selector (obj : Service) :
    (workloadservice.withSelector obj).Selector = some (workloadservice.selectorAfter obj) := by
  simp only [workloadservice.selectorAfter, workloadservice.withSelector]
  split <;> rfl

theorem workloadservice.selectorAfter_wf (obj : Service) (h : (obj.Selector.getD []).WF) :
    (workloadservice.selectorAfter obj).WF := by
  simp only [workloadservice.selectorAfter, workloadservice.withSelector]
  split
  · exact h
  · exact StrMap.set_wf _ _ _ h

theorem workloadservice.selectorAfter_get (obj : Service) :
    (workloadservice.selectorAfter obj).get (workloadservice.getServiceSelector obj)
      = some (workloadservice.syntheticValue obj) := by
  simp only [workloadservice.selectorAfter, workloadservice.withSelector,
    workloadservice.syntheticValue]
  split
  · rename_i v hv
    simp [hv]
  · rename_i hv
    simp [hv, StrMap.get_set_self]

theorem workloadservice.withSelector_of_some (obj : Service) (v : String)
    (h : (obj.Selector.getD []).get (workloadservice.getServiceSelector obj) = some v) :
    workloadservice.withSelector obj = { obj with Selector := some (obj.Selector.getD []) } := by
  simp only [workloadservice.withSelector, h]

theorem workloadservice.withSelector_idem (obj : Service) :
    workloadservice.withSelector (workloadservice.withSelector obj)
      = workloadservice.withSelector obj := by
  have hk : workloadservice.getServiceSelector (workloadservice.withSelector obj)
      = workloadservice.getServiceSelector obj := by
    simp only [workloadservice.getServiceSelector, workloadservice.withSelector]
    split <;> rfl
  have hg : ((workloadservice.withSelector obj).Selector.getD []).get
      (workloadservice.getServiceSelector (workloadservice.withSelector obj))
        = some (workloadservice.syntheticValue obj) := by
    rw [hk]; exact workloadservice.selectorAfter_get obj
  rw [workloadservice.withSelector_of_some _ _ hg]
  have hs := workloadservice.withSelector_selector obj
  cases h : workloadservice.withSelector obj
  simp only [h] at hs
  simp [hs]

/-- Unfolding of `reconcilePods` on a service that carries the annotation. -/
theorem workloadservice.reconcilePods_eq (env : Env) (w : World) (obj : Service)
    (annotations : StrMap) (value : String) (hann : obj.Annotations = some annotations)
    (hval : annotations.get workloadservice.WorkloadAnnotation = some value) :
    workloadservice.reconcilePods env w obj =
      match workloadservice.updatePods env w (workloadservice.withSelector obj)
        (Split value ',') with
      | (.ok _, w') =>
        ⟨.ok (if ((obj.Selector.getD []).get (workloadservice.getServiceSelector obj)).isNone
          then some (workloadservice.withSelector obj) else none),
          workloadservice.withSelector obj, w'⟩
      | (.error e, w') => ⟨.error e, workloadservice.withSelector obj, w'⟩
      | (.panic msg, w') => ⟨.panic msg, workloadservice.withSelector obj, w'⟩ := by
  simp only [workloadservice.reconcilePods, hann, hval]

/-- A successful `reconcilePods` on an annotated service ran the loop to its end and
stored the key set. -/
theorem workloadservice.reconcilePods_ok (env : Env) (w : World) (obj : Service)
    (annotations : StrMap) (value : String) (r : Option Service)
    (hann : obj.Annotations = some annotations)
    (hval : annotations.get workloadservice.WorkloadAnnotation = some value)
    (hok : (workloadservice.reconcilePods env w obj).result = .ok r) :
    ∃ namespaces ptu targets w₁,
      env.GetProjectNamespaces (workloadservice.withSelector obj) = .ok namespaces ∧
      workloadservice.updatePodsLoop env (workloadservice.selectorAfter obj) namespaces
        (Split value ',') [] [] w = (.ok (ptu, targets), w₁) ∧
      workloadservice.reconcilePods env w obj =
        ⟨.ok r, workloadservice.withSelector obj,
          { w₁ with index := indexStore w₁.index (nsName obj.Namespace obj.Name) targets }⟩ := by
  rw [workloadservice.reconcilePods_eq env w obj annotations value hann hval] at hok ⊢
  simp only [workloadservice.updatePods, workloadservice.withSelector_selector,
    Option.getD_some] at hok ⊢
  cases hns : env.GetProjectNamespaces (workloadservice.withSelector obj) with
  | error e => simp [hns] at hok
  | ok namespaces =>
    simp only [hns] at hok ⊢
    cases hl : workloadservice.updatePodsLoop env (workloadservice.selectorAfter obj)
        namespaces (Split value ',') [] [] w with
    | mk res w₁ =>
      cases res with
      | error e => simp [hl] at hok
      | panic m => simp [hl] at hok
      | ok st =>
        obtain ⟨ptu, targets⟩ := st
        simp only [hl] at hok ⊢
        have hname : (workloadservice.withSelector obj).Namespace = obj.Namespace ∧
            (workloadservice.withSelector obj).Name = obj.Name := by
          simp only [workloadservice.withSelector]; split <;> exact ⟨rfl, rfl⟩
        refine ⟨namespaces, ptu, targets, w₁, rfl, hl, ?_⟩
        simp only [Res.ok.injEq] at hok
        simp only [hok, hname.1, hname.2]

theorem workloadservice.mem_resolvedTargets (env : Env) (w : World)
    (namespaces : List String) (toks : List String) (acc : List String) (x : String) :
    x ∈ workloadservice.resolvedTargets env w namespaces toks acc ↔
      x ∈ acc ∨ ∃ tok ∈ toks, ∃ d,
        workloadservice.resolveToken env w namespaces tok = some d ∧
          x = nsName d.Namespace d.Name := by
  induction toks generalizing acc with
  | nil => simp [workloadservice.resolvedTargets]
  | cons tok rest ih =>
    simp only [workloadservice.resolvedTargets]
    cases hd : workloadservice.resolveToken env w namespaces tok with
    | none =>
      simp only [ih, List.mem_cons, exists_eq_or_imp, hd]
      simp
    | some d =>
      simp only [ih, mem_keySetAdd, List.mem_cons, exists_eq_or_imp, hd, Option.some.injEq,
        exists_eq_left']
      tauto

theorem workloadservice.updatePodsLoop_targets (env : Env) (selector : StrMap)
    (namespaces : List String) (toks : List String) (ptu ptu' : List Pod)
    (targets targets' : List String) (w w' : World)
    (h : workloadservice.updatePodsLoop env selector namespaces toks ptu targets w
      = (.ok (ptu', targets'), w')) :
    targets' = workloadservice.resolvedTargets env w namespaces toks targets := by
  induction toks generalizing ptu targets w with
  | nil =>
    simp only [workloadservice.updatePodsLoop, Prod.mk.injEq, Res.ok.injEq] at h
    exact h.1.2.symm
  | cons tok rest ih =>
    simp only [workloadservice.updatePodsLoop] at h
    split at h
    · rename_i ptu₁ targets₁ w₁ hs
      have hfr := workloadservice.tokenStep_frame _ _ _ _ _ _ _ _ _ hs
      rw [ih _ _ _ h, workloadservice.resolvedTargets_frame env w w₁ hfr]
      simp only [workloadservice.resolvedTargets]
      rw [workloadservice.tokenStep_eq] at hs
      split at hs
      · simp only [Prod.mk.injEq] at hs
        exact absurd hs.1 (by simp)
      · split at hs
        · rename_i d hd
          simp only [workloadservice.labelTargetPods] at hs
          split at hs
          · simp only [Prod.mk.injEq] at hs
            exact absurd hs.1 (by simp)
          · split at hs
            · simp only [Prod.mk.injEq] at hs
              exact absurd hs.1 (by simp)
            · split at hs
              · simp only [Prod.mk.injEq, Res.ok.injEq] at hs
                rw [← hs.1.2]
              · simp only [Prod.mk.injEq] at hs
                exact absurd hs.1 (by simp)
              · simp only [Prod.mk.injEq] at hs
                exact absurd hs.1 (by simp)
        · simp only [Prod.mk.injEq, Res.ok.injEq] at hs
          rw [← hs.1.2]
    · simp only [Prod.mk.injEq] at h
      exact absurd h.1 (by simp)
    · simp only [Prod.mk.injEq] at h
      exact absurd h.1 (by simp)

theorem workloadservice.updatePodsLoop_append (env : Env) (selector : StrMap)
    (namespaces : List String) (pre post : List String) (ptu : List Pod)
    (targets : List String) (w : World) :
    workloadservice.updatePodsLoop env selector namespaces (pre ++ post) ptu targets w =
      match workloadservice.updatePodsLoop env selector namespaces pre ptu targets w with
      | (.ok (ptu', targets'), w') =>
        workloadservice.updatePodsLoop env selector namespaces post ptu' targets' w'
      | (.error e, w') => (.error e, w')
      | (.panic msg, w') => (.panic msg, w') := by
  induction pre generalizing ptu targets w with
  | nil => simp [workloadservice.updatePodsLoop]
  | cons tok rest ih =>
    simp only [List.cons_append, workloadservice.updatePodsLoop]
    cases hs : workloadservice.tokenStep env selector namespaces tok ptu targets w with
    | mk res w₁ =>
      cases res with
      | ok st => obtain ⟨a, b⟩ := st; exact ih _ _ _
      | error e => rfl
      | panic m => rfl

theorem length_splitChars (sep : Char) (cs : List Char) :
    (splitChars sep cs).length = cs.count sep + 1 := by
  induction cs with
  | nil => rfl
  | cons c rest ih =>
    by_cases h : c = sep
    · subst h
      simp [splitChars, ih]
    · simp only [splitChars, h, if_false]
      have hc : List.count sep (c :: rest) = List.count sep rest := by
        rw [List.count_cons]; simp [h]
      rw [hc, ← ih]
      cases hsp : splitChars sep rest with
      | nil => rw [hsp] at ih; simp at ih
      | cons a t => simp

theorem length_Split (s : String) (sep : Char) :
    (Split s sep).length = s.data.count sep + 1 := by
  simp [Split, length_splitChars]

/-! ## Stored pods keep their keys -/

theorem replacePod_keys (S : List Pod) (q : Pod) :
    (replacePod S q).map (fun p => (p.Namespace, p.Name)) =
      S.map (fun p => (p.Namespace, p.Name)) := by
  simp only [replacePod, List.map_map]
  apply List.map_congr_left
  intro p _
  simp only [Function.comp]
  split
  · rename_i hk
    simp only [Pod.hasKey, Bool.and_eq_true, beq_iff_eq] at hk
    simp [hk.1, hk.2]
  · rfl

theorem podUpdate_keys (env : Env) (w w' : World) (q : Pod) (r : Except Err Unit)
    (h : podUpdate env w q = (r, w')) :
    w'.pods.map (fun p => (p.Namespace, p.Name)) =
      w.pods.map (fun p => (p.Namespace, p.Name)) := by
  rcases podUpdate_cases env w w' q r h with ⟨_, rfl⟩ | ⟨_, _, rfl⟩
  · rfl
  · exact replacePod_keys _ _

theorem workloadservice.updateLabelled_keys (env : Env) (selector : StrMap)
    (groomed : String) (pods : List Pod) (w w' : World) (r : Res Unit)
    (h : workloadservice.updateLabelled env selector groomed pods w = (r, w')) :
    w'.pods.map (fun p => (p.Namespace, p.Name)) =
      w.pods.map (fun p => (p.Namespace, p.Name)) := by
  induction pods generalizing w with
  | nil =>
    simp only [workloadservice.updateLabelled, Prod.mk.injEq] at h
    rw [← h.2]
  | cons pod rest ih =>
    simp only [workloadservice.updateLabelled] at h
    split at h
    · split at h
      · rename_i hu
        rw [ih _ h, podUpdate_keys _ _ _ _ _ hu]
      · rename_i hu
        simp only [Prod.mk.injEq] at h
        rw [← h.2, podUpdate_keys _ _ _ _ _ hu]
    · simp only [Prod.mk.injEq] at h
      rw [← h.2]
    · simp only [Prod.mk.injEq] at h
      rw [← h.2]

theorem workloadservice.tokenStep_keys (env : Env) (selector : StrMap)
    (namespaces : List String) (tok : String) (ptu : List Pod) (targets : List String)
    (w w' : World) (r : Res (List Pod × List String))
    (h : workloadservice.tokenStep env selector namespaces tok ptu targets w = (r, w')) :
    w'.pods.map (fun p => (p.Namespace, p.Name)) =
      w.pods.map (fun p => (p.Namespace, p.Name)) := by
  rw [workloadservice.tokenStep_eq] at h
  split at h
  · simp only [Prod.mk.injEq] at h
    rw [← h.2]
  · split at h
    · simp only [workloadservice.labelTargetPods] at h
      split at h
      · simp only [Prod.mk.injEq] at h
        rw [← h.2]
      · split at h
        · simp only [Prod.mk.injEq] at h
          rw [← h.2]
        · split at h <;> rename_i hu <;> simp only [Prod.mk.injEq] at h <;> rw [← h.2] <;>
            exact workloadservice.updateLabelled_keys _ _ _ _ _ _ _ hu
    · simp only [Prod.mk.injEq] at h
      rw [← h.2]

theorem workloadservice.updatePodsLoop_keys (env : Env) (selector : StrMap)
    (namespaces : List String) (toks : List String) (ptu : List Pod)
    (targets : List String) (w w' : World) (r : Res (List Pod × List String))
    (h : workloadservice.updatePodsLoop env selector namespaces toks ptu targets w = (r, w')) :
    w'.pods.map (fun p => (p.Namespace, p.Name)) =
      w.pods.map (fun p => (p.Namespace, p.Name)) := by
  induction toks generalizing ptu targets w with
  | nil =>
    simp only [workloadservice.updatePodsLoop, Prod.mk.injEq] at h
    rw [← h.2]
  | cons tok rest ih =>
    simp only [workloadservice.updatePodsLoop] at h
    split at h
    · rename_i hs
      rw [ih _ _ _ h, workloadservice.tokenStep_keys _ _ _ _ _ _ _ _ _ hs]
    · rename_i hs
      simp only [Prod.mk.injEq] at h
      rw [← h.2, workloadservice.tokenStep_keys _ _ _ _ _ _ _ _ _ hs]
    · rename_i hs
      simp only [Prod.mk.injEq] at h
      rw [← h.2, workloadservice.tokenStep_keys _ _ _ _ _ _ _ _ _ hs]

/-! ## Service reconciliation: labels on the target pods -/

/-- C1 (as amended): for a service carrying the target-workload annotation, if
`reconcilePods` returns without error then, for every token that resolves to a
deployment, every pod of the resulting store that has no deletion timestamp and is
matched by the deployment's `matchLabels` carries the label
`workloadID_<serviceName>` with the value the service's selector holds for that key
(`"true"` unless the selector already held the key with another value); the same holds
for the pod stored under the key of a pod that was matched before the call. -/
theorem workloadservice.reconcilePods_labels_matched_pods (env : Env) (w : World)
    (obj : Service) (annotations : StrMap) (value : String) (r : Option Service)
    (namespaces : List String) (tok : String) (d : Deployment)
    (hwf : (obj.Selector.getD []).WF) (hunique : PodsUnique w.pods)
    (hann : obj.Annotations = some annotations)
    (hval : annotations.get workloadservice.WorkloadAnnotation = some value)
    (hns : env.GetProjectNamespaces (workloadservice.withSelector obj) = .ok namespaces)
    (hok : (workloadservice.reconcilePods env w obj).result = .ok r)
    (htok : tok ∈ Split value ',')
    (hres : workloadservice.resolveToken env w namespaces tok = some d) :
    (∀ p' ∈ (workloadservice.reconcilePods env w obj).world.pods,
      p'.DeletionTimestamp = none → matchedBy d p' = true →
        getLabel p'.Labels (workloadservice.getServiceSelector obj)
          = some (workloadservice.syntheticValue obj)) ∧
    (∀ p ∈ w.pods, p.DeletionTimestamp = none → matchedBy d p = true →
      (∃ p' ∈ (workloadservice.reconcilePods env w obj).world.pods,
        p'.Namespace = p.Namespace ∧ p'.Name = p.Name) ∧
      ∀ p' ∈ (workloadservice.reconcilePods env w obj).world.pods,
        p'.Namespace = p.Namespace → p'.Name = p.Name →
          getLabel p'.Labels (workloadservice.getServiceSelector obj)
            = some (workloadservice.syntheticValue obj)) ∧
    (((obj.Selector.getD []).get (workloadservice.getServiceSelector obj) = none ∨
      (obj.Selector.getD []).get (workloadservice.getServiceSelector obj) = some "true") →
        workloadservice.syntheticValue obj = "true") := by
  obtain ⟨namespaces', ptu, targets, w₁, hns', hloop, heq⟩ :=
    workloadservice.reconcilePods_ok env w obj annotations value r hann hval hok
  rw [hns] at hns'
  injection hns' with hns'
  subst hns'
  have hwf' := workloadservice.selectorAfter_wf obj hwf
  have hpods : (workloadservice.reconcilePods env w obj).world.pods = w₁.pods := by rw [heq]
  obtain ⟨_, hall⟩ := workloadservice.updatePodsLoop_ok _ _ hwf' _ _ _ _ _ _ _ _ hloop
  obtain ⟨_, hd⟩ := hall tok htok
  obtain ⟨ls, hls, _, hlab⟩ := hd d hres
  have hcarry : ∀ p', Labelled (workloadservice.selectorAfter obj) p' →
      getLabel p'.Labels (workloadservice.getServiceSelector obj)
        = some (workloadservice.syntheticValue obj) := by
    intro p' hl
    obtain ⟨v, hv⟩ : ∃ v, (workloadservice.getServiceSelector obj, v)
        ∈ workloadservice.selectorAfter obj := by
      have hg := workloadservice.selectorAfter_get obj
      generalize workloadservice.selectorAfter obj = m at hg
      generalize workloadservice.getServiceSelector obj = k at hg
      induction m with
      | nil => simp [StrMap.get] at hg
      | cons e rest ih =>
        obtain ⟨k', v'⟩ := e
        by_cases hk : k' = k
        · exact ⟨v', by simp [hk]⟩
        · simp only [StrMap.get, hk, if_false] at hg
          obtain ⟨v, hv⟩ := ih hg
          exact ⟨v, List.mem_cons_of_mem _ hv⟩
    simp only [Labelled, selectorMatches, List.all_eq_true, beq_iff_eq] at hl
    have h₁ := hl _ hv
    have h₂ := StrMap.setAll_get_of_mem _ [] hwf' _ hv
    have h₃ := workloadservice.selectorAfter_get obj
    have hget : ∀ (m : StrMap) (kv : String × String), m.WF → kv ∈ m →
        m.get kv.1 = some kv.2 := by
      intro m kv hm hkv
      induction m with
      | nil => simp at hkv
      | cons e rest ih =>
        have hm' : e.1 ∉ rest.map Prod.fst ∧ StrMap.WF rest := by
          simpa [StrMap.WF] using hm
        rcases List.mem_cons.1 hkv with h | h
        · subst h; simp [StrMap.get]
        · have hne : e.1 ≠ kv.1 := by
            intro he
            exact hm'.1 (he ▸ List.mem_map_of_mem Prod.fst h)
          simp only [StrMap.get, hne, if_false]
          exact ih hm'.2 h
    have h₄ := hget _ _ hwf' hv
    simp only at h₁ h₄
    rw [h₁, ← h₄, h₃]
  have hmatch : ∀ p : Pod, matchedBy d p = true →
      p.Namespace = d.Namespace ∧ selectorMatches ls.MatchLabels p.Labels = true := by
    intro p hp
    simpa [matchedBy, hls] using hp
  have hfinal : ∀ p' ∈ w₁.pods, p'.DeletionTimestamp = none → matchedBy d p' = true →
      Labelled (workloadservice.selectorAfter obj) p' := by
    intro p' hp' hdel hm
    exact hlab p' hp' hdel (hmatch p' hm).1 (hmatch p' hm).2
  refine ⟨?_, ?_, ?_⟩
  · intro p' hp' hdel hm
    rw [hpods] at hp'
    exact hcarry p' (hfinal p' hp' hdel hm)
  · intro p hp hdel hm
    have hkeys := workloadservice.updatePodsLoop_keys _ _ _ _ _ _ _ _ _ hloop
    refine ⟨?_, ?_⟩
    · have : (p.Namespace, p.Name) ∈ w₁.pods.map (fun p => (p.Namespace, p.Name)) := by
        rw [hkeys]; exact List.mem_map_of_mem _ hp
      obtain ⟨p', hp', hk⟩ := List.mem_map.1 this
      simp only [Prod.mk.injEq] at hk
      exact ⟨p', by rw [hpods]; exact hp', hk.1, hk.2⟩
    · intro p' hp' hns' hname
      rw [hpods] at hp'
      rcases workloadservice.updatePodsLoop_advance _ _ hwf' _ _ _ _ _ _ _ hloop p' hp'
        with h | h
      · have : p' = p := hunique p' h p hp hns' hname
        subst this
        exact hcarry p' (hfinal p' hp' hdel hm)
      · exact hcarry p' h
  · rintro (h | h) <;> simp [workloadservice.syntheticValue, h]


/-- Witness of C1 on the worked example of the specification: `svc-a` bound to
`ns1:dep1`, whose pod `pod-a` ends up labelled `workloadID_svc-a=true`. -/
theorem workloadservice.reconcilePods_labels_matched_pods_witness :
    (svcA.Selector.getD []).WF ∧ PodsUnique exampleWorld.pods ∧
    svcA.Annotations = some [(workloadservice.WorkloadAnnotation, "ns1:dep1")] ∧
    (workloadservice.reconcilePods exampleEnv exampleWorld svcA).result
      = .ok (some (workloadservice.withSelector svcA)) ∧
    workloadservice.resolveToken exampleEnv exampleWorld ["ns1"] "ns1:dep1" = some dep1 ∧
    (∀ p' ∈ (workloadservice.reconcilePods exampleEnv exampleWorld svcA).world.pods,
      p'.DeletionTimestamp = none → matchedBy dep1 p' = true →
        getLabel p'.Labels (workloadservice.getServiceSelector svcA)
          = some (workloadservice.syntheticValue svcA)) ∧
    workloadservice.syntheticValue svcA = "true" :=
  have h := workloadservice.reconcilePods_labels_matched_pods exampleEnv exampleWorld svcA
    [(workloadservice.WorkloadAnnotation, "ns1:dep1")] "ns1:dep1"
    (some (workloadservice.withSelector svcA)) ["ns1"] "ns1:dep1" dep1
    (by decide) (by decide) rfl (by decide) rfl (by decide) (by decide) (by decide)
  ⟨by decide, by decide, rfl, by decide, by decide, h.1, h.2.2 (Or.inl (by decide))⟩

/-- Counterexample to C1 as stated: the selector of `svcPinned` already holds
`workloadID_svc-a` with the value `"false"`; `reconcilePods` succeeds, and the matched
pod `pod-a` is labelled `workloadID_svc-a=false`, not `"true"`. -/
theorem workloadservice.reconcilePods_label_value_counterexample :
    (workloadservice.reconcilePods exampleEnv exampleWorld svcPinned).result = .ok none ∧
    workloadservice.resolveToken exampleEnv exampleWorld ["ns1"] "ns1:dep1" = some dep1 ∧
    ∃ p' ∈ (workloadservice.reconcilePods exampleEnv exampleWorld svcPinned).world.pods,
      p'.DeletionTimestamp = none ∧ matchedBy dep1 p' = true ∧
      getLabel p'.Labels (workloadservice.getServiceSelector svcPinned) = some "false" ∧
      getLabel p'.Labels (workloadservice.getServiceSelector svcPinned) ≠ some "true" := by
  decide

/-! ## Service reconciliation: the index entry -/

/-- C2: for a service carrying the target-workload annotation, if `reconcilePods`
returns without error then the index entry under `<namespace>:<name>` of the service
is exactly the set of keys of the deployments the annotation's tokens resolve to in this
run, whatever the entry held before, and the entries of the other keys are unchanged. -/
theorem workloadservice.reconcilePods_index_entry (env : Env) (w : World) (obj : Service)
    (annotations : StrMap) (value : String) (r : Option Service) (namespaces : List String)
    (hann : obj.Annotations = some annotations)
    (hval : annotations.get workloadservice.WorkloadAnnotation = some value)
    (hns : env.GetProjectNamespaces (workloadservice.withSelector obj) = .ok namespaces)
    (hok : (workloadservice.reconcilePods env w obj).result = .ok r) :
    ∃ targets,
      indexLoad (workloadservice.reconcilePods env w obj).world.index
        (nsName obj.Namespace obj.Name) = some targets ∧
      (∀ key, key ∈ targets ↔ ∃ tok ∈ Split value ',', ∃ d,
        workloadservice.resolveToken env w namespaces tok = some d ∧
          key = nsName d.Namespace d.Name) ∧
      ∀ k, k ≠ nsName obj.Namespace obj.Name →
        indexLoad (workloadservice.reconcilePods env w obj).world.index k
          = indexLoad w.index k := by
  obtain ⟨namespaces', ptu, targets, w₁, hns', hloop, heq⟩ :=
    workloadservice.reconcilePods_ok env w obj annotations value r hann hval hok
  rw [hns] at hns'
  injection hns' with hns'
  subst hns'
  have hfr := workloadservice.updatePodsLoop_frame _ _ _ _ _ _ _ _ _ hloop
  have ht := workloadservice.updatePodsLoop_targets _ _ _ _ _ _ _ _ _ _ hloop
  refine ⟨targets, ?_, ?_, ?_⟩
  · rw [heq]; exact indexLoad_store_self _ _ _
  · intro key
    rw [ht, workloadservice.mem_resolvedTargets]
    simp
  · intro k hk
    rw [heq]
    simp only
    rw [indexLoad_store_ne _ _ _ _ hk, hfr.2.2.1]

/-- Witness of C2: on a store whose index holds a stale entry for `svc-a` and an entry
of another service, the entry of `svc-a` becomes exactly `ns1:dep1`. -/
theorem workloadservice.reconcilePods_index_entry_witness :
    (workloadservice.reconcilePods exampleEnv staleIndexWorld svcA).result
      = .ok (some (workloadservice.withSelector svcA)) ∧
    indexLoad staleIndexWorld.index "ns1:svc-a" = some ["ns1:old", "ns1:dep1"] ∧
    ∃ targets,
      indexLoad (workloadservice.reconcilePods exampleEnv staleIndexWorld svcA).world.index
        (nsName svcA.Namespace svcA.Name) = some targets ∧
      (∀ key, key ∈ targets ↔ ∃ tok ∈ Split "ns1:dep1" ',', ∃ d,
        workloadservice.resolveToken exampleEnv staleIndexWorld ["ns1"] tok = some d ∧
          key = nsName d.Namespace d.Name) ∧
      ∀ k, k ≠ nsName svcA.Namespace svcA.Name →
        indexLoad (workloadservice.reconcilePods exampleEnv staleIndexWorld svcA).world.index k
          = indexLoad staleIndexWorld.index k :=
  ⟨by decide, by decide,
    workloadservice.reconcilePods_index_entry exampleEnv staleIndexWorld svcA
      [(workloadservice.WorkloadAnnotation, "ns1:dep1")] "ns1:dep1"
      (some (workloadservice.withSelector svcA)) ["ns1"] rfl (by decide) rfl (by decide)⟩

/-! ## Service reconciliation: idempotence -/

theorem workloadservice.resolveToken_deployments (env : Env) (w w' : World)
    (h : w'.deployments = w.deployments) (namespaces : List String) (tok : String) :
    workloadservice.resolveToken env w' namespaces tok
      = workloadservice.resolveToken env w namespaces tok := by
  simp only [workloadservice.resolveToken, deploymentGet, h]

theorem workloadservice.resolvedTargets_deployments (env : Env) (w w' : World)
    (h : w'.deployments = w.deployments) (namespaces : List String) (toks : List String)
    (acc : List String) :
    workloadservice.resolvedTargets env w' namespaces toks acc
      = workloadservice.resolvedTargets env w namespaces toks acc := by
  induction toks generalizing acc with
  | nil => rfl
  | cons tok rest ih =>
    simp only [workloadservice.resolvedTargets,
      workloadservice.resolveToken_deployments env w w' h, ih]

theorem workloadservice.withSelector_meta (obj : Service) :
    (workloadservice.withSelector obj).Namespace = obj.Namespace ∧
    (workloadservice.withSelector obj).Name = obj.Name ∧
    (workloadservice.withSelector obj).Annotations = obj.Annotations := by
  simp only [workloadservice.withSelector]
  split <;> exact ⟨rfl, rfl, rfl⟩

/-- C5: for a service carrying the target-workload annotation, if `reconcilePods`
succeeds, running it again on the resulting service object against the resulting state
computes the same synthetic label key, returns no object and no error, calls
`pods.Update` zero times, and leaves the pod store, the index and the service object
unchanged. -/
theorem workloadservice.reconcilePods_idempotent (env : Env) (w : World) (obj : Service)
    (annotations : StrMap) (value : String) (r : Option Service)
    (hwf : (obj.Selector.getD []).WF)
    (hann : obj.Annotations = some annotations)
    (hval : annotations.get workloadservice.WorkloadAnnotation = some value)
    (hok : (workloadservice.reconcilePods env w obj).result = .ok r) :
    workloadservice.getServiceSelector (workloadservice.reconcilePods env w obj).obj
      = workloadservice.getServiceSelector obj ∧
    (workloadservice.reconcilePods env (workloadservice.reconcilePods env w obj).world
      (workloadservice.reconcilePods env w obj).obj).result = .ok none ∧
    (workloadservice.reconcilePods env (workloadservice.reconcilePods env w obj).world
      (workloadservice.reconcilePods env w obj).obj).world.updateCalls
        = (workloadservice.reconcilePods env w obj).world.updateCalls ∧
    (workloadservice.reconcilePods env (workloadservice.reconcilePods env w obj).world
      (workloadservice.reconcilePods env w obj).obj).world.pods
        = (workloadservice.reconcilePods env w obj).world.pods ∧
    (workloadservice.reconcilePods env (workloadservice.reconcilePods env w obj).world
      (workloadservice.reconcilePods env w obj).obj).world.index
        = (workloadservice.reconcilePods env w obj).world.index ∧
    (workloadservice.reconcilePods env (workloadservice.reconcilePods env w obj).world
      (workloadservice.reconcilePods env w obj).obj).obj
        = (workloadservice.reconcilePods env w obj).obj := by
  obtain ⟨namespaces, ptu, targets, w₁, hns, hloop, heq⟩ :=
    workloadservice.reconcilePods_ok env w obj annotations value r hann hval hok
  have hwf' := workloadservice.selectorAfter_wf obj hwf
  obtain ⟨hmns, hmname, hmann⟩ := workloadservice.withSelector_meta obj
  have hfr := workloadservice.updatePodsLoop_frame _ _ _ _ _ _ _ _ _ hloop
  obtain ⟨ht, hall⟩ := workloadservice.updatePodsLoop_ok _ _ hwf' _ _ _ _ _ _ _ _ hloop
  have hkey : workloadservice.getServiceSelector (workloadservice.withSelector obj)
      = workloadservice.getServiceSelector obj := by
    simp only [workloadservice.getServiceSelector, hmname]
  have hget : ((workloadservice.withSelector obj).Selector.getD []).get
      (workloadservice.getServiceSelector (workloadservice.withSelector obj))
        = some (workloadservice.syntheticValue obj) := by
    rw [hkey]; exact workloadservice.selectorAfter_get obj
  -- the state after the first run
  generalize hw₂ :
    ({ w₁ with index := indexStore w₁.index (nsName obj.Namespace obj.Name) targets } : World)
      = w₂ at heq
  have hdep : w₂.deployments = w.deployments := by rw [← hw₂]; exact hfr.1
  have hpods : w₂.pods = w₁.pods := by rw [← hw₂]
  have hidx : w₂.index = indexStore w₁.index (nsName obj.Namespace obj.Name) targets := by
    rw [← hw₂]
  -- the loop of the second run writes nothing
  have hsettled := workloadservice.updatePodsLoop_settled env
    (workloadservice.selectorAfter obj) namespaces (Split value ',') [] w₂ (by
      intro tok htok
      obtain ⟨hlen, hd⟩ := hall tok htok
      refine ⟨hlen, ?_⟩
      intro d hres
      rw [workloadservice.resolveToken_deployments env w w₂ hdep] at hres
      obtain ⟨ls, h₁, h₂, h₃⟩ := hd d hres
      exact ⟨ls, h₁, h₂, by rw [hpods]; exact h₃⟩)
  rw [workloadservice.resolvedTargets_deployments env w w₂ hdep, ← ht] at hsettled
  have hsecond : workloadservice.reconcilePods env w₂ (workloadservice.withSelector obj)
      = ⟨.ok none, workloadservice.withSelector obj, w₂⟩ := by
    rw [workloadservice.reconcilePods_eq env w₂ (workloadservice.withSelector obj)
      annotations value (hmann.trans hann) hval]
    rw [workloadservice.withSelector_idem]
    simp only [workloadservice.updatePods, hns, workloadservice.withSelector_selector,
      Option.getD_some, hsettled, hmns, hmname]
    have hst :
        ({ w₂ with index := indexStore w₂.index (nsName obj.Namespace obj.Name) targets }
          : World) = w₂ := by
      rw [hidx, indexStore_idem, ← hidx]
    rw [hst]
    have hg := workloadservice.selectorAfter_get obj
    simp only [hkey] at hget ⊢
    simp [hg]
  rw [heq]
  simp only [hsecond]
  exact ⟨hkey, trivial, trivial, trivial, trivial, trivial⟩

/-- Witness of C5 on the worked example: the second run on the labelled store returns
no object and writes nothing. -/
theorem workloadservice.reconcilePods_idempotent_witness :
    (svcA.Selector.getD []).WF ∧
    (workloadservice.reconcilePods exampleEnv exampleWorld svcA).result
      = .ok (some (workloadservice.withSelector svcA)) ∧
    (workloadservice.reconcilePods exampleEnv exampleWorld svcA).world.updateCalls.length = 1 ∧
    (workloadservice.reconcilePods exampleEnv
      (workloadservice.reconcilePods exampleEnv exampleWorld svcA).world
      (workloadservice.reconcilePods exampleEnv exampleWorld svcA).obj).result = .ok none ∧
    (workloadservice.reconcilePods exampleEnv
      (workloadservice.reconcilePods exampleEnv exampleWorld svcA).world
      (workloadservice.reconcilePods exampleEnv exampleWorld svcA).obj).world.updateCalls
        = (workloadservice.reconcilePods exampleEnv exampleWorld svcA).world.updateCalls :=
  have h := workloadservice.reconcilePods_idempotent exampleEnv exampleWorld svcA
    [(workloadservice.WorkloadAnnotation, "ns1:dep1")] "ns1:dep1"
    (some (workloadservice.withSelector svcA)) (by decide) rfl (by decide) (by decide)
  ⟨by decide, by decide, by decide, h.2.1, h.2.2.1⟩

/-! ## Service reconciliation: malformed tokens -/

theorem workloadservice.updatePodsLoop_pieces (env : Env) (selector : StrMap)
    (namespaces : List String) (toks : List String) (ptu : List Pod)
    (targets : List String) (w w' : World) (st : List Pod × List String)
    (h : workloadservice.updatePodsLoop env selector namespaces toks ptu targets w
      = (.ok st, w')) :
    ∀ tok ∈ toks, 2 ≤ (Split (TrimSpace tok) ':').length := by
  induction toks generalizing ptu targets w with
  | nil => intro tok htok; simp at htok
  | cons tok rest ih =>
    simp only [workloadservice.updatePodsLoop] at h
    split at h
    · rename_i hs
      intro tok' htok'
      rcases List.mem_cons.1 htok' with rfl | htok'
      · rw [workloadservice.tokenStep_eq] at hs
        split at hs
        · simp only [Prod.mk.injEq] at hs
          exact absurd hs.1 (by simp)
        · omega
      · exact ih _ _ _ h tok' htok'
    · simp only [Prod.mk.injEq] at h
      exact absurd h.1 (by simp)
    · simp only [Prod.mk.injEq] at h
      exact absurd h.1 (by simp)

/-- A token without a `:` separator anywhere in the annotation keeps `reconcilePods`
from succeeding. -/
theorem workloadservice.reconcilePods_malformed_never_succeeds (env : Env) (w : World)
    (obj : Service) (annotations : StrMap) (value : String) (tok : String)
    (hann : obj.Annotations = some annotations)
    (hval : annotations.get workloadservice.WorkloadAnnotation = some value)
    (htok : tok ∈ Split value ',') (hno : ':' ∉ (TrimSpace tok).data) :
    ∀ r, (workloadservice.reconcilePods env w obj).result ≠ .ok r := by
  intro r hok
  obtain ⟨namespaces, ptu, targets, w₁, _, hloop, _⟩ :=
    workloadservice.reconcilePods_ok env w obj annotations value r hann hval hok
  have := workloadservice.updatePodsLoop_pieces _ _ _ _ _ _ _ _ _ hloop tok htok
  rw [length_Split, List.count_eq_zero_of_not_mem hno] at this
  omega

/-- C4 (as amended): for a service whose target-workload annotation, split on `,`
with each piece whitespace-trimmed, contains a token with no `:` separator,
`reconcilePods` returns the error `Wrong format for workloadID [token]`, provided the
project-namespace lookup and the tokens before it were processed without failure. -/
theorem workloadservice.reconcilePods_token_without_separator (env : Env) (w : World)
    (obj : Service) (annotations : StrMap) (value : String) (namespaces : List String)
    (pre post : List String) (tok : String) (st : List Pod × List String) (w₁ : World)
    (hann : obj.Annotations = some annotations)
    (hval : annotations.get workloadservice.WorkloadAnnotation = some value)
    (hns : env.GetProjectNamespaces (workloadservice.withSelector obj) = .ok namespaces)
    (hsplit : Split value ',' = pre ++ tok :: post)
    (hno : ':' ∉ (TrimSpace tok).data)
    (hpre : workloadservice.updatePodsLoop env (workloadservice.selectorAfter obj)
      namespaces pre [] [] w = (.ok st, w₁)) :
    (workloadservice.reconcilePods env w obj).result
      = .error (.wrongFormat (TrimSpace tok)) := by
  have hlen : (Split (TrimSpace tok) ':').length < 2 := by
    rw [length_Split, List.count_eq_zero_of_not_mem hno]; omega
  obtain ⟨ptu, targets⟩ := st
  rw [workloadservice.reconcilePods_eq env w obj annotations value hann hval]
  simp only [workloadservice.updatePods, hns, workloadservice.withSelector_selector,
    Option.getD_some, hsplit, workloadservice.updatePodsLoop_append, hpre,
    workloadservice.updatePodsLoop, workloadservice.tokenStep_eq, hlen, if_true]

/-- Witness of C4: the annotation `ns1:dep1, badtoken`; the first token is processed,
the second one is rejected. -/
theorem workloadservice.reconcilePods_token_without_separator_witness :
    Split "ns1:dep1, badtoken" ',' = ["ns1:dep1"] ++ " badtoken" :: [] ∧
    ':' ∉ (TrimSpace " badtoken").data ∧
    (workloadservice.reconcilePods exampleEnv exampleWorld svcBadToken).result
      = .error (.wrongFormat "badtoken") :=
  ⟨by decide, by decide,
    workloadservice.reconcilePods_token_without_separator exampleEnv exampleWorld svcBadToken
      [(workloadservice.WorkloadAnnotation, "ns1:dep1, badtoken")] "ns1:dep1, badtoken"
      ["ns1"] ["ns1:dep1"] [] " badtoken"
      ([podA], ["ns1:dep1"])
      (workloadservice.updatePodsLoop exampleEnv (workloadservice.selectorAfter svcBadToken)
        ["ns1"] ["ns1:dep1"] [] [] exampleWorld).2
      rfl (by decide) rfl (by decide) (by decide) (by decide)⟩

/-- Counterexample to C4 as stated: the token `ns1:dep1:extra` has two `:`
separators, and `reconcilePods` succeeds: the check is on fewer than two pieces, and
the pieces after the second are ignored. -/
theorem workloadservice.reconcilePods_two_separators_counterexample :
    svcThreePieces.Annotations
      = some [(workloadservice.WorkloadAnnotation, "ns1:dep1:extra")] ∧
    (TrimSpace "ns1:dep1:extra").data.count ':' = 2 ∧
    (workloadservice.reconcilePods exampleEnv exampleWorld svcThreePieces).result
      = .ok (some (workloadservice.withSelector svcThreePieces)) ∧
    indexLoad (workloadservice.reconcilePods exampleEnv exampleWorld svcThreePieces).world.index
      "ns1:svc-a" = some ["ns1:dep1"] := by
  decide

/-! ## Service removal -/

/-- C6: `Remove` returns no object and no error, leaves no index entry under
`<namespace>:<name>` of the service, leaves every other index entry unchanged, and
writes no pod: the pod store and the log of `pods.Update` calls, like the deployments,
the services and the queue, are what they were. -/
theorem workloadservice.Remove_deletes_only_the_entry (w : World) (obj : Service) :
    (workloadservice.Remove w obj).result = .ok none ∧
    indexLoad (workloadservice.Remove w obj).world.index (nsName obj.Namespace obj.Name)
      = none ∧
    (∀ k, k ≠ nsName obj.Namespace obj.Name →
      indexLoad (workloadservice.Remove w obj).world.index k = indexLoad w.index k) ∧
    (workloadservice.Remove w obj).world.pods = w.pods ∧
    (workloadservice.Remove w obj).world.updateCalls = w.updateCalls ∧
    (workloadservice.Remove w obj).world.deployments = w.deployments ∧
    (workloadservice.Remove w obj).world.services = w.services ∧
    (workloadservice.Remove w obj).world.queue = w.queue := by
  refine ⟨rfl, ?_, ?_, rfl, rfl, rfl, rfl, rfl⟩
  · exact indexLoad_filter_self _ _
  · intro k hk
    exact indexLoad_filter_ne _ _ _ hk

/-- Witness of C6: removing `svc-a` from the index left by earlier events keeps the
entry of the other service. -/
theorem workloadservice.Remove_deletes_only_the_entry_witness :
    indexLoad staleIndexWorld.index "ns1:svc-a" = some ["ns1:old", "ns1:dep1"] ∧
    indexLoad (workloadservice.Remove staleIndexWorld svcA).world.index "ns1:svc-a" = none ∧
    indexLoad (workloadservice.Remove staleIndexWorld svcA).world.index "ns1:other"
      = some ["ns1:dep9"] ∧
    (workloadservice.Remove staleIndexWorld svcA).world.pods = staleIndexWorld.pods :=
  have h := workloadservice.Remove_deletes_only_the_entry staleIndexWorld svcA
  ⟨by decide, h.2.1, (h.2.2.1 "ns1:other" (by decide)).trans (by decide), h.2.2.2.1⟩

/-! ## Pod backfill -/

/-- The map `labelsToAdd` of `sync` is always empty: its loop ranges over the map it
has just made. -/
theorem podtoworkload.computeLabelsToAdd_eq_nil (obj : Pod) :
    podtoworkload.computeLabelsToAdd obj = [] := rfl

/-- No run of `sync` changes the state: `pods.Update` is never reached. -/
theorem podtoworkload.sync_changes_nothing (env : Env) (w : World) (key : String)
    (obj : Option Pod) : (podtoworkload.sync env w key obj).2 = w := by
  unfold podtoworkload.sync
  cases obj with
  | none => rfl
  | some obj =>
    simp only [podtoworkload.computeLabelsToAdd_eq_nil, List.length_nil, gt_iff_lt,
      lt_self_iff_false, if_false]
    split
    · rfl
    · split
      · rfl
      · split
        · rfl
        · rfl
        · split
          · rfl
          · rfl
          · split <;> rfl

/-- C3 (code defect): on `boundWorld` the pod `pod-b` matches `dep1`, the index binds
`svc-a` to `ns1:dep1`, the stored `svc-a` selects `workloadID_svc-a=true` and the pod
lacks that label; `sync` returns without error, makes no `pods.Update` call and leaves
the pod without the label. -/
theorem podtoworkload.sync_leaves_pod_unlabelled :
    podB ∈ boundWorld.pods ∧ podB.DeletionTimestamp = none ∧
    matchedBy dep1 podB = true ∧
    indexLoad boundWorld.index "ns1:svc-a" = some ["ns1:dep1"] ∧
    (serviceGet exampleEnv boundWorld "ns1" "svc-a").toOption = some svcALabelled ∧
    svcALabelled.Selector = some [("workloadID_svc-a", "true")] ∧
    getLabel podB.Labels "workloadID_svc-a" = none ∧
    (podtoworkload.sync exampleEnv boundWorld "ns1/pod-b" (some podB)).1 = .ok () ∧
    (podtoworkload.sync exampleEnv boundWorld "ns1/pod-b" (some podB)).2.updateCalls = [] ∧
    (podtoworkload.sync exampleEnv boundWorld "ns1/pod-b" (some podB)).2.pods = [podB] := by
  decide

theorem podtoworkload.collectWorkLoadLabels_append (env : Env) (w : World) (obj : Pod)
    (pre post : List String) (acc labels : StrMap)
    (h : podtoworkload.collectWorkLoadLabels env w obj pre acc = .ok labels) :
    podtoworkload.collectWorkLoadLabels env w obj (pre ++ post) acc
      = podtoworkload.collectWorkLoadLabels env w obj post labels := by
  induction pre generalizing acc with
  | nil =>
    simp only [podtoworkload.collectWorkLoadLabels, Res.ok.injEq] at h
    rw [List.nil_append, h]
  | cons uuid rest ih =>
    simp only [List.cons_append, podtoworkload.collectWorkLoadLabels] at h ⊢
    split at h
    · split at h
      · cases h
      · exact ih _ h
    · cases h

/-- The general form of what `sync` does with a service key whose service object
cannot be resolved: when the keys before it resolved, `sync` returns the error of the
service lister's `Get` (a NotFound error included), does not look at the remaining keys
and writes nothing. -/
theorem podtoworkload.sync_unresolved_service_is_fatal (env : Env) (w : World)
    (key : String) (obj : Pod) (deployments : List Deployment) (pre post : List String)
    (uuid ns name : String) (pieces : List String) (labels : StrMap) (e : Err)
    (hdel : obj.DeletionTimestamp = none)
    (hlist : deploymentList env w obj.Namespace = .ok deployments)
    (hidx : podtoworkload.matchingServiceUUIDs w.index obj deployments []
      = .ok (pre ++ uuid :: post))
    (hpre : podtoworkload.collectWorkLoadLabels env w obj pre [] = .ok labels)
    (hsplit : Split uuid ':' = ns :: name :: pieces)
    (hget : serviceGet env w obj.Namespace name = .error e) :
    podtoworkload.sync env w key (some obj) = (.error e, w) := by
  have hcol : podtoworkload.collectWorkLoadLabels env w obj (pre ++ uuid :: post) []
      = .error e := by
    rw [podtoworkload.collectWorkLoadLabels_append env w obj pre _ [] labels hpre]
    simp only [podtoworkload.collectWorkLoadLabels, hsplit, hget]
  simp only [podtoworkload.sync, hdel, hlist, hidx, hcol]

/-- An instance of the general form: the index of `staleBindingWorld` binds the
missing service `svc-gone` to `ns1:dep1`; `sync` of `pod-b` returns the NotFound
error. -/
theorem podtoworkload.sync_unresolved_service_is_fatal_witness :
    podB.DeletionTimestamp = none ∧
    Split "ns1:svc-gone" ':' = ["ns1", "svc-gone"] ∧
    IsNotFound (.notFound "services" "ns1" "svc-gone") = true ∧
    podtoworkload.sync exampleEnv staleBindingWorld "ns1/pod-b" (some podB)
      = (.error (.notFound "services" "ns1" "svc-gone"), staleBindingWorld) :=
  ⟨rfl, by decide, rfl,
    podtoworkload.sync_unresolved_service_is_fatal exampleEnv staleBindingWorld "ns1/pod-b"
      podB [dep1] [] ["ns1:svc-a"] "ns1:svc-gone" "ns1" "svc-gone" [] [] _
      rfl rfl (by decide) rfl (by decide) rfl⟩

/-- C10 (code defect): the key `ns1:svc-gone` is in the index and its service is not
stored; `sync` returns that NotFound error instead of skipping the key, and the
selector of the resolvable service `svc-a`, bound to the same deployment, is not
applied. -/
theorem podtoworkload.sync_returns_not_found_of_stale_key :
    indexLoad staleBindingWorld.index "ns1:svc-gone" = some ["ns1:dep1"] ∧
    (serviceGet exampleEnv staleBindingWorld "ns1" "svc-gone").toOption = none ∧
    (serviceGet exampleEnv staleBindingWorld "ns1" "svc-a").toOption = some svcALabelled ∧
    (podtoworkload.sync exampleEnv staleBindingWorld "ns1/pod-b" (some podB)).1
      = .error (.notFound "services" "ns1" "svc-gone") ∧
    (podtoworkload.sync exampleEnv staleBindingWorld "ns1/pod-b" (some podB)).2.pods
      = [podB] := by
  decide

/-! ## Endpoint update and removal -/

/-- C9 (code defect): the reverse annotation `ns1:svc-gone,ns1:svc-a` names a missing
service before the stored service `svc-a`; `Updated` and `Remove` return without error
and enqueue nothing, although `svc-a` resolves. With the two tokens in the other order
`svc-a` is enqueued. -/
theorem endpoint.Updated_stops_at_missing_service :
    (serviceGet exampleEnv exampleWorld "ns1" "svc-a").toOption = some svcA ∧
    (serviceGet exampleEnv exampleWorld "ns1" "svc-gone").toOption = none ∧
    (endpoint.Updated exampleEnv exampleWorld epGoneFirst).1 = .ok () ∧
    (endpoint.Updated exampleEnv exampleWorld epGoneFirst).2.queue = [] ∧
    (endpoint.Remove exampleEnv exampleWorld epGoneFirst).1 = .ok () ∧
    (endpoint.Remove exampleEnv exampleWorld epGoneFirst).2.queue = [] ∧
    (endpoint.Updated exampleEnv exampleWorld epGoneLast).1 = .ok () ∧
    (endpoint.Updated exampleEnv exampleWorld epGoneLast).2.queue = [("ns1", "svc-a")] := by
  decide

/-! ## Keys of well-formed names -/

theorem nsName_data (a b : String) : (nsName a b).data = a.data ++ ':' :: b.data := by
  simp [nsName]

theorem trimChars_of_no_space (cs : List Char) (h : ∀ c ∈ cs, isSpace c = false) :
    trimChars cs = cs := by
  have hd : ∀ l : List Char, (∀ c ∈ l, isSpace c = false) → l.dropWhile isSpace = l := by
    intro l hl
    cases l with
    | nil => rfl
    | cons c t =>
      have := hl c (List.mem_cons_self _ _)
      simp [List.dropWhile_cons, this]
  unfold trimChars
  rw [hd cs h, hd cs.reverse (fun c hc => h c (List.mem_reverse.1 hc)), List.reverse_reverse]

theorem splitChars_of_not_mem (sep : Char) (cs : List Char) (h : sep ∉ cs) :
    splitChars sep cs = [cs] := by
  induction cs with
  | nil => rfl
  | cons c t ih =>
    simp only [List.mem_cons, not_or] at h
    have hne : ¬ c = sep := fun e => h.1 e.symm
    simp only [splitChars, hne, if_false, ih h.2]

theorem splitChars_append_sep (sep : Char) (a b : List Char) (h : sep ∉ a) :
    splitChars sep (a ++ sep :: b) = a :: splitChars sep b := by
  induction a with
  | nil => simp [splitChars]
  | cons c t ih =>
    simp only [List.mem_cons, not_or] at h
    have hne : ¬ c = sep := fun e => h.1 e.symm
    have ih' := ih h.2
    simp only [List.cons_append, splitChars, hne, if_false]
    show (match splitChars sep (t ++ sep :: b) with
      | [] => [[c]]
      | piece :: pieces => (c :: piece) :: pieces) = (c :: t) :: splitChars sep b
    rw [ih']

/-- The key of a valid namespace and name trims to itself and splits back into the
namespace and the name. -/
theorem split_nsName (a b : String) (ha : ValidName a) (hb : ValidName b) :
    Split (TrimSpace (nsName a b)) ':' = [a, b] := by
  have htrim : TrimSpace (nsName a b) = nsName a b := by
    unfold TrimSpace
    rw [trimChars_of_no_space]
    intro c hc
    rw [nsName_data] at hc
    rcases List.mem_append.1 hc with h | h
    · exact (ha c h).2
    · rcases List.mem_cons.1 h with h | h
      · subst h; decide
      · exact (hb c h).2
  rw [htrim]
  unfold Split
  rw [nsName_data, splitChars_append_sep _ _ _ (fun h => (ha _ h).1 rfl),
    splitChars_of_not_mem _ _ (fun h => (hb _ h).1 rfl)]
  rfl

/-! ## Endpoint creation -/

/-- When every key is the key of a valid namespace and name of a stored service whose
`Get` does not fail, the loop of `reconcileServiceForEndpoint` enqueues each of them. -/
theorem endpoint.triggerServices_found (env : Env) (pairs : List (String × String))
    (w : World)
    (h : ∀ p ∈ pairs, ValidName p.1 ∧ ValidName p.2 ∧
      env.fault (.serviceGet p.1 p.2) = none ∧
      ∃ svc ∈ w.services, svc.Namespace = p.1 ∧ svc.Name = p.2) :
    endpoint.triggerServices env (pairs.map fun p => nsName p.1 p.2) w
      = (.ok (), { w with queue := w.queue ++ pairs }) := by
  induction pairs generalizing w with
  | nil => simp [endpoint.triggerServices]
  | cons p rest ih =>
    obtain ⟨h₁, h₂, hget, svc, hsvc, hns, hname⟩ := h p (List.mem_cons_self _ _)
    have hfound : ∃ s, serviceGet env w p.1 p.2 = .ok s := by
      simp only [serviceGet, hget]
      cases hf : w.services.find? (fun s => s.Namespace == p.1 && s.Name == p.2) with
      | some s => exact ⟨s, rfl⟩
      | none =>
        rw [List.find?_eq_none] at hf
        exact absurd (by simp [hns, hname]) (hf svc hsvc)
    obtain ⟨s, hs⟩ := hfound
    simp only [List.map_cons, endpoint.triggerServices, split_nsName p.1 p.2 h₁ h₂, hs]
    rw [ih { w with queue := w.queue ++ [(p.1, p.2)] }
      (fun q hq => h q (List.mem_cons_of_mem _ hq))]
    simp

theorem endpoint.recordsOf_eq (env : Env) (obj : Endpoints) (svc : Service) :
    endpoint.recordsOf env (nsName obj.Namespace obj.Name) svc =
      ((endpoint.recordsOf env (nsName obj.Namespace obj.Name) svc).map
        fun _ => (svc.Namespace, svc.Name)).map fun p => nsName p.1 p.2 := by
  simp only [endpoint.recordsOf]
  split
  · rfl
  · split
    · rfl
    · simp [Function.comp]

theorem endpoint.recordsOf_ne_nil (env : Env) (obj : Endpoints) (svc : Service) :
    endpoint.recordsOf env (nsName obj.Namespace obj.Name) svc ≠ [] ↔
      listsEndpoint env obj svc = true := by
  simp only [endpoint.recordsOf, listsEndpoint]
  split
  · simp
  · split
    · simp
    · simp only [ne_eq, List.map_eq_nil_iff, List.filter_eq_nil_iff, not_forall,
        Decidable.not_not, List.any_eq_true]
      constructor
      · rintro ⟨x, hx, hp⟩; exact ⟨x, hx, hp⟩
      · rintro ⟨x, hx, hp⟩; exact ⟨x, hx, hp⟩

/-- C8 (as amended): for an endpoint `E` and a service store whose `List` succeeds and
whose `Get` does not fail for the services of `E`'s namespace that list `E` (the names
in `E`'s namespace being Kubernetes names), `Create` returns without error and
enqueues, as a set, exactly the services of `E`'s namespace that carry the DNS-record
annotation with a record equal to `<E.namespace>:<E.name>`; no object is written. -/
theorem endpoint.Create_enqueues_listing_services (env : Env) (w : World)
    (obj : Endpoints)
    (hlist : env.fault (.serviceList obj.Namespace) = none)
    (hget : ∀ svc ∈ w.services, svc.Namespace = obj.Namespace →
      listsEndpoint env obj svc = true →
        env.fault (.serviceGet svc.Namespace svc.Name) = none)
    (hnames : ∀ svc ∈ w.services, svc.Namespace = obj.Namespace →
      ValidName svc.Namespace ∧ ValidName svc.Name) :
    (endpoint.Create env w obj).1 = .ok () ∧
    (∀ ns name, (ns, name) ∈ (endpoint.Create env w obj).2.queue ↔
      (ns, name) ∈ w.queue ∨ ∃ svc ∈ w.services, svc.Namespace = obj.Namespace ∧
        listsEndpoint env obj svc = true ∧ ns = svc.Namespace ∧ name = svc.Name) ∧
    (endpoint.Create env w obj).2.pods = w.pods ∧
    (endpoint.Create env w obj).2.services = w.services ∧
    (endpoint.Create env w obj).2.deployments = w.deployments ∧
    (endpoint.Create env w obj).2.index = w.index ∧
    (endpoint.Create env w obj).2.updateCalls = w.updateCalls := by
  have hkeys : (w.services.filter fun s => s.Namespace == obj.Namespace).flatMap
      (endpoint.recordsOf env (nsName obj.Namespace obj.Name)) =
      ((w.services.filter fun s => s.Namespace == obj.Namespace).flatMap fun svc =>
        (endpoint.recordsOf env (nsName obj.Namespace obj.Name) svc).map
          fun _ => (svc.Namespace, svc.Name)).map fun p => nsName p.1 p.2 := by
    rw [List.map_flatMap]
    congr 1
    funext svc
    exact endpoint.recordsOf_eq env obj svc
  have hmem : ∀ p, p ∈ ((w.services.filter fun s => s.Namespace == obj.Namespace).flatMap
      fun svc => (endpoint.recordsOf env (nsName obj.Namespace obj.Name) svc).map
        fun _ => (svc.Namespace, svc.Name)) ↔
      ∃ svc ∈ w.services, svc.Namespace = obj.Namespace ∧
        listsEndpoint env obj svc = true ∧ p = (svc.Namespace, svc.Name) := by
    intro p
    simp only [List.mem_flatMap, List.mem_filter, beq_iff_eq, List.mem_map]
    constructor
    · rintro ⟨svc, ⟨hsvc, hns⟩, x, hx, hp⟩
      refine ⟨svc, hsvc, hns, ?_, hp.symm⟩
      exact (endpoint.recordsOf_ne_nil env obj svc).1 (List.ne_nil_of_mem hx)
    · rintro ⟨svc, hsvc, hns, hl, hp⟩
      have hne := (endpoint.recordsOf_ne_nil env obj svc).2 hl
      obtain ⟨x, hx⟩ := List.exists_mem_of_ne_nil _ hne
      exact ⟨svc, ⟨hsvc, hns⟩, x, hx, hp.symm⟩
  have hrun : endpoint.Create env w obj = (.ok (), { w with queue := w.queue ++
      ((w.services.filter fun s => s.Namespace == obj.Namespace).flatMap fun svc =>
        (endpoint.recordsOf env (nsName obj.Namespace obj.Name) svc).map
          fun _ => (svc.Namespace, svc.Name)) }) := by
    simp only [endpoint.Create, endpoint.reconcileServiceForEndpoint,
      endpoint.getDNSRecordServices, if_true, serviceList, hlist, hkeys]
    apply endpoint.triggerServices_found env _ w
    intro p hp
    obtain ⟨svc, hsvc, hns, hl, rfl⟩ := (hmem p).1 hp
    exact ⟨(hnames svc hsvc hns).1, (hnames svc hsvc hns).2, hget svc hsvc hns hl,
      svc, hsvc, rfl, rfl⟩
  rw [hrun]
  refine ⟨rfl, ?_, rfl, rfl, rfl, rfl, rfl⟩
  intro ns name
  simp only [List.mem_append, hmem, Prod.mk.injEq]

/-- Witness of C8: of the three services of `ns1`, `Create` for the endpoint `ns1:ep-a`
enqueues `svc-dns` only. -/
theorem endpoint.Create_enqueues_listing_services_witness :
    exampleEnv.fault (.serviceList epA.Namespace) = none ∧
    (∀ svc ∈ dnsWorld.services, svc.Namespace = epA.Namespace →
      listsEndpoint exampleEnv epA svc = true →
        exampleEnv.fault (.serviceGet svc.Namespace svc.Name) = none) ∧
    (∀ svc ∈ dnsWorld.services, svc.Namespace = epA.Namespace →
      ValidName svc.Namespace ∧ ValidName svc.Name) ∧
    listsEndpoint exampleEnv epA svcDns = true ∧
    listsEndpoint exampleEnv epA svcA = false ∧
    listsEndpoint exampleEnv epA svcOtherDns = false ∧
    (endpoint.Create exampleEnv dnsWorld epA).2.queue = [("ns1", "svc-dns")] ∧
    (endpoint.Create exampleEnv dnsWorld epA).1 = .ok () ∧
    (endpoint.Create exampleEnv dnsWorld epA).2.services = dnsWorld.services :=
  have h := endpoint.Create_enqueues_listing_services exampleEnv dnsWorld epA rfl
    (fun _ _ _ _ => rfl) (by decide)
  ⟨rfl, fun _ _ _ _ => rfl, by decide, by decide, by decide, by decide, by decide, h.1,
    h.2.2.2.1⟩

/-- Counterexample to C8 as stated: `List` succeeds and `svc-dns` and `svc-dns2` both
list the endpoint `ns1:ep-a`, but `Get` of `svc-dns` fails with a store error;
`Create` returns that error (line 102) and enqueues neither service. -/
theorem endpoint.Create_get_failure_counterexample :
    getFailsEnv.fault (.serviceList epA.Namespace) = none ∧
    (serviceList getFailsEnv dnsPairWorld epA.Namespace).toOption = some [svcDns, svcDns2] ∧
    listsEndpoint getFailsEnv epA svcDns = true ∧
    listsEndpoint getFailsEnv epA svcDns2 = true ∧
    (endpoint.Create getFailsEnv dnsPairWorld epA).1
      = .error (.storeFailure "etcd unavailable") ∧
    (endpoint.Create getFailsEnv dnsPairWorld epA).2.queue = [] := by
  decide

/-- The defect of `Updated` and `Remove` reaches `Create` too: when `Get` of the listed
service `svc-dns` answers NotFound, `Create` returns without error and enqueues
nothing, although `svc-dns2` lists the endpoint and resolves. -/
theorem endpoint.Create_stops_at_missing_service :
    listsEndpoint getNotFoundEnv epA svcDns2 = true ∧
    (serviceGet getNotFoundEnv dnsPairWorld "ns1" "svc-dns2").toOption = some svcDns2 ∧
    (endpoint.Create getNotFoundEnv dnsPairWorld epA).1 = .ok () ∧
    (endpoint.Create getNotFoundEnv dnsPairWorld epA).2.queue = [] := by
  decide

/-! ## The index over a sequence of service events -/

theorem workloadservice.handle_index (env : Env) (w : World) (ev : workloadservice.Event)
    (r : Option Service) (key : String)
    (hok : (workloadservice.handle env w ev).result = .ok r) :
    (indexLoad (workloadservice.handle env w ev).world.index key).isSome
      = workloadservice.bindStep key (indexLoad w.index key).isSome ev := by
  have hrec : ∀ obj : Service, (workloadservice.reconcilePods env w obj).result = .ok r →
      (indexLoad (workloadservice.reconcilePods env w obj).world.index key).isSome =
        if nsName obj.Namespace obj.Name = key then
          ((indexLoad w.index key).isSome || workloadservice.carriesAnnotation obj)
        else (indexLoad w.index key).isSome := by
    intro obj hobj
    cases hann : obj.Annotations with
    | none =>
      simp [workloadservice.reconcilePods, hann, workloadservice.carriesAnnotation]
    | some annotations =>
      cases hval : annotations.get workloadservice.WorkloadAnnotation with
      | none =>
        simp [workloadservice.reconcilePods, hann, hval, workloadservice.carriesAnnotation]
      | some value =>
        obtain ⟨namespaces, ptu, targets, w₁, _, hloop, heq⟩ :=
          workloadservice.reconcilePods_ok env w obj annotations value r hann hval hobj
        have hfr := workloadservice.updatePodsLoop_frame _ _ _ _ _ _ _ _ _ hloop
        rw [heq]
        simp only [workloadservice.carriesAnnotation, hann, hval, Option.isSome_some,
          Bool.or_true]
        by_cases hk : nsName obj.Namespace obj.Name = key
        · subst hk
          simp [indexLoad_store_self]
        · have hk' : key ≠ nsName obj.Namespace obj.Name := fun e => hk e.symm
          simp only [hk, if_false]
          rw [indexLoad_store_ne _ _ _ _ hk', hfr.2.2.1]
  cases ev with
  | create obj =>
    simpa only [workloadservice.handle, workloadservice.Create, workloadservice.bindStep,
      workloadservice.Event.key] using hrec obj hok
  | updated obj =>
    simpa only [workloadservice.handle, workloadservice.Updated, workloadservice.bindStep,
      workloadservice.Event.key] using hrec obj hok
  | remove obj =>
    simp only [workloadservice.handle, workloadservice.Remove, workloadservice.bindStep,
      workloadservice.Event.key, indexDelete]
    by_cases hk : nsName obj.Namespace obj.Name = key
    · subst hk
      simp [indexLoad_filter_self]
    · have hk' : key ≠ nsName obj.Namespace obj.Name := fun e => hk e.symm
      simp only [hk, if_false]
      rw [indexLoad_filter_ne _ _ _ hk']

theorem workloadservice.handleAll_index (env : Env) (w w' : World)
    (events : List workloadservice.Event) (key : String)
    (hrun : workloadservice.handleAll env w events = some w') :
    (indexLoad w'.index key).isSome
      = events.foldl (workloadservice.bindStep key) (indexLoad w.index key).isSome := by
  induction events generalizing w with
  | nil =>
    simp only [workloadservice.handleAll, Option.some.injEq] at hrun
    subst hrun; rfl
  | cons ev rest ih =>
    simp only [workloadservice.handleAll] at hrun
    split at hrun
    · rename_i r hok
      rw [ih _ hrun, workloadservice.handle_index env w ev r key hok]
      rfl
    · cases hrun

/-- C7 (as amended): starting from the empty index, after any sequence of successful
service Create / Updated / Remove events, the index contains an entry under a
service's key if and only if, since the last Remove for that key (or since the start),
there was a Create or Updated of a service object with that key that carries the
target-workload annotation; an Updated for a service whose annotation has been removed
leaves the entry in place. -/
theorem workloadservice.index_entry_iff_bound_since_remove (env : Env) (w w' : World)
    (events : List workloadservice.Event) (key : String)
    (hempty : w.index = [])
    (hrun : workloadservice.handleAll env w events = some w') :
    (indexLoad w'.index key).isSome = true ↔
      workloadservice.boundSinceRemove key events = true := by
  rw [workloadservice.handleAll_index env w w' events key hrun, hempty]
  rfl

/-- Witness of C7: `svc-a` is created with the annotation and then updated without
it; the entry is still there, as `boundSinceRemove` says. -/
theorem workloadservice.index_entry_iff_bound_since_remove_witness :
    exampleWorld.index = [] ∧
    (workloadservice.handleAll exampleEnv exampleWorld
      [.create svcA, .updated svcAUnannotated]).isSome = true ∧
    workloadservice.boundSinceRemove "ns1:svc-a" [.create svcA, .updated svcAUnannotated]
      = true ∧
    workloadservice.boundSinceRemove "ns1:svc-a"
      [.create svcA, .updated svcAUnannotated, .remove svcAUnannotated] = false ∧
    ((indexLoad ((workloadservice.handleAll exampleEnv exampleWorld
      [.create svcA, .updated svcAUnannotated]).getD exampleWorld).index
        "ns1:svc-a").isSome = true ↔
      workloadservice.boundSinceRemove "ns1:svc-a"
        [.create svcA, .updated svcAUnannotated] = true) :=
  ⟨rfl, by decide, by decide, by decide,
    workloadservice.index_entry_iff_bound_since_remove exampleEnv exampleWorld _
      [.create svcA, .updated svcAUnannotated] "ns1:svc-a" rfl (by decide)⟩

/-- Counterexample to C7 as stated: `svc-a` is created with the annotation and then
updated with the annotation removed. Both events succeed, the most recent event for
`ns1:svc-a` does not carry the annotation, and the index still holds the entry. -/
theorem workloadservice.index_keeps_entry_counterexample :
    exampleWorld.index = [] ∧
    workloadservice.carriesAnnotation svcAUnannotated = false ∧
    workloadservice.lastEventBinds "ns1:svc-a" [.create svcA, .updated svcAUnannotated]
      = false ∧
    ((workloadservice.handleAll exampleEnv exampleWorld
      [.create svcA, .updated svcAUnannotated]).bind
        fun w => indexLoad w.index "ns1:svc-a") = some ["ns1:dep1"] := by
  decide

/-! ## Services without the annotation -/

/-- C12: for a service that has no annotations or lacks the target-workload
annotation, `Create` and `Updated` return no object and no error and change nothing:
the state (pod store, log of `pods.Update` calls, index) and the service object, its
selector included, are what they were. -/
theorem workloadservice.Create_Updated_without_annotation (env : Env) (w : World)
    (obj : Service) (h : workloadservice.carriesAnnotation obj = false) :
    workloadservice.Create env w obj = ⟨.ok none, obj, w⟩ ∧
    workloadservice.Updated env w obj = ⟨.ok none, obj, w⟩ := by
  have hrec : workloadservice.reconcilePods env w obj = ⟨.ok none, obj, w⟩ := by
    unfold workloadservice.carriesAnnotation at h
    cases hann : obj.Annotations with
    | none => simp only [workloadservice.reconcilePods, hann]
    | some annotations =>
      simp only [hann] at h
      cases hval : annotations.get workloadservice.WorkloadAnnotation with
      | none => simp only [workloadservice.reconcilePods, hann, hval]
      | some value => simp [hval] at h
  exact ⟨hrec, hrec⟩

/-- Witness of C12: a service without annotations, and `svc-a` after its annotation
was removed, on a store with an index left by earlier events. -/
theorem workloadservice.Create_Updated_without_annotation_witness :
    workloadservice.carriesAnnotation svcBare = false ∧
    workloadservice.carriesAnnotation svcAUnannotated = false ∧
    (workloadservice.Create exampleEnv staleIndexWorld svcBare
      = ⟨.ok none, svcBare, staleIndexWorld⟩ ∧
    workloadservice.Updated exampleEnv staleIndexWorld svcBare
      = ⟨.ok none, svcBare, staleIndexWorld⟩) ∧
    (workloadservice.Updated exampleEnv staleIndexWorld svcAUnannotated).world.index
      = staleIndexWorld.index :=
  ⟨by decide, by decide,
    workloadservice.Create_Updated_without_annotation exampleEnv staleIndexWorld svcBare
      (by decide), by decide⟩

/-! ## The selector of the service -/

theorem workloadservice.selectorAfter_get_ne (obj : Service) (k : String)
    (hk : k ≠ workloadservice.getServiceSelector obj) :
    (workloadservice.selectorAfter obj).get k = (obj.Selector.getD []).get k := by
  simp only [workloadservice.selectorAfter, workloadservice.withSelector]
  split
  · rfl
  · exact StrMap.get_set_ne _ _ _ _ hk

/-- C13 (as amended): for a service carrying the target-workload annotation for
which `reconcilePods` succeeds, the service's selector afterwards maps
`workloadID_<serviceName>` to `"true"` when the key was absent before the call and to
the value it already held otherwise, every other selector entry is unchanged, and
`reconcilePods` returns the mutated service for write-back if and only if the key was
absent from the selector before the call (otherwise it returns no object). -/
theorem workloadservice.reconcilePods_selector (env : Env) (w : World) (obj : Service)
    (annotations : StrMap) (value : String) (r : Option Service)
    (hann : obj.Annotations = some annotations)
    (hval : annotations.get workloadservice.WorkloadAnnotation = some value)
    (hok : (workloadservice.reconcilePods env w obj).result = .ok r) :
    (workloadservice.reconcilePods env w obj).obj.Selector
      = some (workloadservice.selectorAfter obj) ∧
    (workloadservice.selectorAfter obj).get (workloadservice.getServiceSelector obj)
      = some (workloadservice.syntheticValue obj) ∧
    (∀ k, k ≠ workloadservice.getServiceSelector obj →
      (workloadservice.selectorAfter obj).get k = (obj.Selector.getD []).get k) ∧
    ((obj.Selector.getD []).get (workloadservice.getServiceSelector obj) = none →
      workloadservice.syntheticValue obj = "true" ∧
        r = some (workloadservice.reconcilePods env w obj).obj) ∧
    (∀ v, (obj.Selector.getD []).get (workloadservice.getServiceSelector obj) = some v →
      workloadservice.syntheticValue obj = v ∧ r = none) ∧
    (workloadservice.reconcilePods env w obj).obj.Namespace = obj.Namespace ∧
    (workloadservice.reconcilePods env w obj).obj.Name = obj.Name ∧
    (workloadservice.reconcilePods env w obj).obj.Annotations = obj.Annotations := by
  have hr : r = if ((obj.Selector.getD []).get
      (workloadservice.getServiceSelector obj)).isNone
      then some (workloadservice.withSelector obj) else none := by
    rw [workloadservice.reconcilePods_eq env w obj annotations value hann hval] at hok
    split at hok
    · simp only [Res.ok.injEq] at hok
      exact hok.symm
    · cases hok
    · cases hok
  obtain ⟨_, _, _, _, _, _, heq⟩ :=
    workloadservice.reconcilePods_ok env w obj annotations value r hann hval hok
  obtain ⟨hmns, hmname, hmann⟩ := workloadservice.withSelector_meta obj
  have hobj : (workloadservice.reconcilePods env w obj).obj
      = workloadservice.withSelector obj := by rw [heq]
  rw [hobj]
  refine ⟨workloadservice.withSelector_selector obj, workloadservice.selectorAfter_get obj,
    workloadservice.selectorAfter_get_ne obj, ?_, ?_, hmns, hmname, hmann⟩
  · intro hnone
    exact ⟨by simp [workloadservice.syntheticValue, hnone], by simp [hr, hnone]⟩
  · intro v hv
    exact ⟨by simp [workloadservice.syntheticValue, hv], by simp [hr, hv]⟩

/-- Witness of C13 on the worked example: the selector of `svc-a` gains
`workloadID_svc-a=true` and the mutated service is returned. -/
theorem workloadservice.reconcilePods_selector_witness :
    (workloadservice.reconcilePods exampleEnv exampleWorld svcA).result
      = .ok (some svcALabelled) ∧
    (svcA.Selector.getD []).get (workloadservice.getServiceSelector svcA) = none ∧
    (workloadservice.reconcilePods exampleEnv exampleWorld svcA).obj.Selector
      = some (workloadservice.selectorAfter svcA) ∧
    workloadservice.selectorAfter svcA = [("workloadID_svc-a", "true")] ∧
    workloadservice.syntheticValue svcA = "true" ∧
    some svcALabelled = some (workloadservice.reconcilePods exampleEnv exampleWorld svcA).obj :=
  have h := workloadservice.reconcilePods_selector exampleEnv exampleWorld svcA
    [(workloadservice.WorkloadAnnotation, "ns1:dep1")] "ns1:dep1" (some svcALabelled)
    rfl (by decide) (by decide)
  ⟨by decide, by decide, h.1, by decide, (h.2.2.2.1 (by decide)).1,
    (h.2.2.2.1 (by decide)).2⟩

/-- Counterexample to C13 as stated: the selector of `svcPinned` holds
`workloadID_svc-a=false` before the call; `reconcilePods` succeeds and the selector
afterwards still maps the key to `"false"`, not to `"true"`. -/
theorem workloadservice.reconcilePods_selector_value_counterexample :
    (workloadservice.reconcilePods exampleEnv exampleWorld svcPinned).result = .ok none ∧
    ((workloadservice.reconcilePods exampleEnv exampleWorld svcPinned).obj.Selector.getD []).get
      (workloadservice.getServiceSelector svcPinned) = some "false" ∧
    ((workloadservice.reconcilePods exampleEnv exampleWorld svcPinned).obj.Selector.getD []).get
      (workloadservice.getServiceSelector svcPinned) ≠ some "true" := by
  decide

/-! ## The synthetic label key -/

/-- C15: `getServiceSelector` returns `workloadID_` followed by the service's name,
whatever the other fields of the service are, and two services with different names get
different label keys. -/
theorem workloadservice.getServiceSelector_injective (obj : Service) :
    workloadservice.getServiceSelector obj = "workloadID_" ++ obj.Name ∧
    (∀ other : Service, other.Name = obj.Name →
      workloadservice.getServiceSelector other = workloadservice.getServiceSelector obj) ∧
    ∀ other : Service, obj.Name ≠ other.Name →
      workloadservice.getServiceSelector obj ≠ workloadservice.getServiceSelector other := by
  have hform : ∀ s : Service,
      workloadservice.getServiceSelector s = "workloadID_" ++ s.Name := by
    intro s
    apply String.ext
    simp [workloadservice.getServiceSelector, workloadservice.WorkloadIDLabelPrefix]
  refine ⟨hform obj, ?_, ?_⟩
  · intro other h
    rw [hform, hform, h]
  · intro other hne heq
    rw [hform, hform] at heq
    have hdata := congrArg String.data heq
    simp only [String.data_append, List.append_cancel_left_eq] at hdata
    exact hne (String.ext hdata)

/-- Witness of C15: `svc-a` and `svc-bare` get different label keys, and two service
objects named `svc-a` with different annotations and selectors get the same one. -/
theorem workloadservice.getServiceSelector_injective_witness :
    workloadservice.getServiceSelector svcA = "workloadID_svc-a" ∧
    workloadservice.getServiceSelector svcAUnannotated
      = workloadservice.getServiceSelector svcA ∧
    workloadservice.getServiceSelector svcA ≠ workloadservice.getServiceSelector svcBare :=
  have h := workloadservice.getServiceSelector_injective svcA
  ⟨h.1.trans (by decide), h.2.1 svcAUnannotated rfl, h.2.2 svcBare (by decide)⟩

/-! ## The index when reconciliation fails -/

/-- C16: if `reconcilePods` does not succeed (it returns an error: project-namespace
lookup failure, malformed token, pod list failure or pod update failure; or it
panics), the index is exactly what it was before the call: the entry is stored only
after the loop over the tokens has ended without failure. -/
theorem workloadservice.reconcilePods_failure_keeps_index (env : Env) (w : World)
    (obj : Service)
    (hfail : ∀ r, (workloadservice.reconcilePods env w obj).result ≠ .ok r) :
    (workloadservice.reconcilePods env w obj).world.index = w.index := by
  cases hann : obj.Annotations with
  | none => simp only [workloadservice.reconcilePods, hann]
  | some annotations =>
    cases hval : annotations.get workloadservice.WorkloadAnnotation with
    | none => simp only [workloadservice.reconcilePods, hann, hval]
    | some value =>
      rw [workloadservice.reconcilePods_eq env w obj annotations value hann hval] at hfail ⊢
      simp only [workloadservice.updatePods] at hfail ⊢
      cases hns : env.GetProjectNamespaces (workloadservice.withSelector obj) with
      | error e => simp only [hns]
      | ok namespaces =>
        simp only [hns] at hfail ⊢
        cases hl : workloadservice.updatePodsLoop env
            ((workloadservice.withSelector obj).Selector.getD []) namespaces
            (Split value ',') [] [] w with
        | mk res w₁ =>
          have hfr := workloadservice.updatePodsLoop_frame _ _ _ _ _ _ _ _ _ hl
          cases res with
          | ok st =>
            simp only [hl] at hfail
            exact absurd rfl (hfail _)
          | error e => simp only [hl]; exact hfr.2.2.1
          | panic m => simp only [hl]; exact hfr.2.2.1

/-- Witness of C16: the second token of `svcBadToken` is malformed; the pod of the
first token has been written, and the index, stale entry included, is untouched. -/
theorem workloadservice.reconcilePods_failure_keeps_index_witness :
    (workloadservice.reconcilePods exampleEnv staleIndexWorld svcBadToken).result
      = .error (.wrongFormat "badtoken") ∧
    (workloadservice.reconcilePods exampleEnv staleIndexWorld svcBadToken).world.updateCalls.length
      = 1 ∧
    (workloadservice.reconcilePods exampleEnv staleIndexWorld svcBadToken).world.index
      = staleIndexWorld.index :=
  ⟨by decide, by decide,
    workloadservice.reconcilePods_failure_keeps_index exampleEnv staleIndexWorld svcBadToken
      (by
        intro r h
        have h' : (workloadservice.reconcilePods exampleEnv staleIndexWorld svcBadToken).result
            = .error (.wrongFormat "badtoken") := by decide
        rw [h'] at h
        cases h)⟩

/-! ## Endpoint annotations without a separator -/

/-- Whenever the first token of the reverse annotation has no `:` separator,
`Updated` and `Remove` panic before anything is enqueued. -/
theorem endpoint.Updated_panics_on_first_token (env : Env) (w : World) (obj : Endpoints)
    (value tok : String) (rest : List String)
    (hann : getLabel obj.Annotations env.DNSEndpointAnnotation = some value)
    (hsplit : Split value ',' = tok :: rest) (hno : ':' ∉ (TrimSpace tok).data) :
    endpoint.Updated env w obj = (.panic "index out of range", w) ∧
    endpoint.Remove env w obj = (.panic "index out of range", w) := by
  have hlen : (Split (TrimSpace tok) ':').length = 1 := by
    rw [length_Split, List.count_eq_zero_of_not_mem hno]
  obtain ⟨x, hx⟩ : ∃ x, Split (TrimSpace tok) ':' = [x] := by
    cases hs : Split (TrimSpace tok) ':' with
    | nil => rw [hs] at hlen; simp at hlen
    | cons a t =>
      cases t with
      | nil => exact ⟨a, rfl⟩
      | cons b t' => rw [hs] at hlen; simp at hlen
  have hrun : endpoint.reconcileServiceForEndpoint env w obj false
      = (.panic "index out of range", w) := by
    simp [endpoint.reconcileServiceForEndpoint, endpoint.getDNSRecordServices, hann, hsplit,
      endpoint.triggerServices, hx]
  exact ⟨hrun, hrun⟩

/-- C17 (code defect): `Updated` and `Remove` index the colon-split token at 1 without
a length check. On the empty reverse annotation they panic at once; on
`ns1:svc-a,badtoken` they enqueue `svc-a` and panic on the second token. -/
theorem endpoint.Updated_panics_without_separator :
    Split "" ',' = [""] ∧ Split (TrimSpace "") ':' = [""] ∧
    endpoint.Updated exampleEnv exampleWorld epEmptyAnnotation
      = (.panic "index out of range", exampleWorld) ∧
    endpoint.Remove exampleEnv exampleWorld epEmptyAnnotation
      = (.panic "index out of range", exampleWorld) ∧
    (endpoint.Updated exampleEnv exampleWorld epNoSeparator).1 = .panic "index out of range" ∧
    (endpoint.Updated exampleEnv exampleWorld epNoSeparator).2.queue = [("ns1", "svc-a")] ∧
    (endpoint.Remove exampleEnv exampleWorld epNoSeparator).1 = .panic "index out of range" := by
  decide

/-! ## Tokens that do not resolve -/

theorem workloadservice.tokenStep_unresolvable (env : Env) (selector : StrMap)
    (namespaces : List String) (tok : String) (ptu : List Pod) (targets : List String)
    (w w' : World) (hdep : w'.deployments = w.deployments)
    (h : workloadservice.unresolvable env w namespaces tok = true) :
    workloadservice.tokenStep env selector namespaces tok ptu targets w'
      = (.ok (ptu, targets), w') := by
  simp only [workloadservice.unresolvable, Bool.and_eq_true, decide_eq_true_eq,
    Option.isNone_iff_eq_none] at h
  rw [workloadservice.tokenStep_eq, if_neg (by omega),
    workloadservice.resolveToken_deployments env w w' hdep, h.2]

theorem workloadservice.updatePodsLoop_filter (env : Env) (selector : StrMap)
    (namespaces : List String) (w : World) (toks : List String) (ptu : List Pod)
    (targets : List String) (w' : World) (hdep : w'.deployments = w.deployments) :
    workloadservice.updatePodsLoop env selector namespaces toks ptu targets w' =
      workloadservice.updatePodsLoop env selector namespaces
        (toks.filter fun tok => !workloadservice.unresolvable env w namespaces tok)
        ptu targets w' := by
  induction toks generalizing ptu targets w' with
  | nil => rfl
  | cons tok rest ih =>
    cases hu : workloadservice.unresolvable env w namespaces tok with
    | true =>
      simp only [List.filter_cons, hu, Bool.not_true, Bool.false_eq_true, if_false,
        workloadservice.updatePodsLoop,
        workloadservice.tokenStep_unresolvable env selector namespaces tok ptu targets w w'
          hdep hu]
      exact ih _ _ _ hdep
    | false =>
      simp only [List.filter_cons, hu, Bool.not_false, if_true,
        workloadservice.updatePodsLoop]
      cases hs : workloadservice.tokenStep env selector namespaces tok ptu targets w' with
      | mk res w₁ =>
        have hfr := workloadservice.tokenStep_frame _ _ _ _ _ _ _ _ _ hs
        cases res with
        | ok st =>
          obtain ⟨a, b⟩ := st
          exact ih _ _ _ (hfr.1.trans hdep)
        | error e => rfl
        | panic m => rfl

/-- The loop body passes over an unresolvable token, and `updatePods` gives on a token
list the same outcome as on the list with the unresolvable tokens removed. -/
theorem workloadservice.updatePods_filter_unresolvable (env : Env) (w : World)
    (obj : Service) (namespaces : List String) (workloadIDs : List String)
    (hns : env.GetProjectNamespaces obj = .ok namespaces) :
    (∀ tok, workloadservice.unresolvable env w namespaces tok = true →
      ∀ podsToUpdate targetWorkloadUUIDs,
        workloadservice.tokenStep env (obj.Selector.getD []) namespaces tok podsToUpdate
          targetWorkloadUUIDs w = (.ok (podsToUpdate, targetWorkloadUUIDs), w)) ∧
    workloadservice.updatePods env w obj workloadIDs =
      workloadservice.updatePods env w obj
        (workloadIDs.filter fun tok => !workloadservice.unresolvable env w namespaces tok) := by
  refine ⟨?_, ?_⟩
  · intro tok h ptu targets
    exact workloadservice.tokenStep_unresolvable env _ namespaces tok ptu targets w w rfl h
  · simp only [workloadservice.updatePods, hns]
    rw [workloadservice.updatePodsLoop_filter env _ namespaces w workloadIDs [] [] w rfl]

/-- C11: a well-formed annotation token whose namespace is not visible to the
service's project, or whose deployment is not found or has a deletion timestamp, is
passed over by the loop without error and without effect, and `reconcilePods` yields
the same error status and the same resulting state (pod store, index, everything else)
as the run of its body `updatePods` on the token list with those tokens removed. -/
theorem workloadservice.reconcilePods_skips_unresolvable (env : Env) (w : World)
    (obj : Service) (annotations : StrMap) (value : String) (namespaces : List String)
    (hann : obj.Annotations = some annotations)
    (hval : annotations.get workloadservice.WorkloadAnnotation = some value)
    (hns : env.GetProjectNamespaces (workloadservice.withSelector obj) = .ok namespaces) :
    (∀ tok, workloadservice.unresolvable env w namespaces tok = true →
      ∀ podsToUpdate targetWorkloadUUIDs,
        workloadservice.tokenStep env (workloadservice.selectorAfter obj) namespaces tok
          podsToUpdate targetWorkloadUUIDs w = (.ok (podsToUpdate, targetWorkloadUUIDs), w)) ∧
    (workloadservice.reconcilePods env w obj).world =
      (workloadservice.updatePods env w (workloadservice.withSelector obj)
        ((Split value ',').filter
          fun tok => !workloadservice.unresolvable env w namespaces tok)).2 ∧
    ((∃ r, (workloadservice.reconcilePods env w obj).result = .ok r) ↔
      (workloadservice.updatePods env w (workloadservice.withSelector obj)
        ((Split value ',').filter
          fun tok => !workloadservice.unresolvable env w namespaces tok)).1 = .ok ()) ∧
    (∀ e, (workloadservice.reconcilePods env w obj).result = .error e ↔
      (workloadservice.updatePods env w (workloadservice.withSelector obj)
        ((Split value ',').filter
          fun tok => !workloadservice.unresolvable env w namespaces tok)).1 = .error e) ∧
    (∀ msg, (workloadservice.reconcilePods env w obj).result = .panic msg ↔
      (workloadservice.updatePods env w (workloadservice.withSelector obj)
        ((Split value ',').filter
          fun tok => !workloadservice.unresolvable env w namespaces tok)).1 = .panic msg) := by
  obtain ⟨hstep, hfilter⟩ := workloadservice.updatePods_filter_unresolvable env w
    (workloadservice.withSelector obj) namespaces (Split value ',') hns
  rw [workloadservice.withSelector_selector] at hstep
  refine ⟨hstep, ?_⟩
  rw [← hfilter, workloadservice.reconcilePods_eq env w obj annotations value hann hval]
  cases hu : workloadservice.updatePods env w (workloadservice.withSelector obj)
      (Split value ',') with
  | mk res w₁ =>
    cases res with
    | ok u => simp
    | error e => simp
    | panic m => simp

/-- Witness of C11: of the four tokens of `svcManyTokens` only `ns1:dep1` resolves;
`reconcilePods` succeeds and leaves the state of the run on that token alone. -/
theorem workloadservice.reconcilePods_skips_unresolvable_witness :
    (Split "ns9:dep1, ns1:dep-gone,ns1:dep1 ,ns1:dep-old" ',').filter
      (fun tok => !workloadservice.unresolvable exampleEnv manyTokensWorld ["ns1"] tok)
        = ["ns1:dep1 "] ∧
    (workloadservice.reconcilePods exampleEnv manyTokensWorld svcManyTokens).result
      = .ok (some (workloadservice.withSelector svcManyTokens)) ∧
    (workloadservice.reconcilePods exampleEnv manyTokensWorld svcManyTokens).world =
      (workloadservice.updatePods exampleEnv manyTokensWorld
        (workloadservice.withSelector svcManyTokens)
        ((Split "ns9:dep1, ns1:dep-gone,ns1:dep1 ,ns1:dep-old" ',').filter fun tok =>
          !workloadservice.unresolvable exampleEnv manyTokensWorld ["ns1"] tok)).2 :=
  ⟨by decide, by decide,
    (workloadservice.reconcilePods_skips_unresolvable exampleEnv manyTokensWorld
      svcManyTokens
      [(workloadservice.WorkloadAnnotation, "ns9:dep1, ns1:dep-gone,ns1:dep1 ,ns1:dep-old")]
      "ns9:dep1, ns1:dep-gone,ns1:dep1 ,ns1:dep-old" ["ns1"] rfl (by decide) rfl).2.1⟩

/-! ## Pod labels are only added -/

theorem extends_same (keys : List String) (p : Pod) : Extends keys p p :=
  ⟨rfl, rfl, fun _ h => h, fun _ _ => rfl⟩

theorem storeExtends_same (keys : List String) (S : List Pod) : StoreExtends keys S S :=
  fun q hq => ⟨q, hq, extends_same keys q⟩

theorem StrMap.setAll_get_isSome (src m : StrMap) (k : String)
    (h : (m.get k).isSome = true) : ((m.setAll src).get k).isSome = true := by
  induction src generalizing m with
  | nil => exact h
  | cons e rest ih =>
    simp only [StrMap.setAll, List.foldl_cons]
    apply ih
    by_cases hk : k = e.1
    · subst hk; simp [StrMap.get_set_self]
    · rw [StrMap.get_set_ne _ _ _ _ hk]; exact h

theorem workloadservice.assignLabels_extends (labels labels' : Option StrMap)
    (selector : StrMap) (h : workloadservice.assignLabels labels selector = .ok labels') :
    (∀ k, (getLabel labels k).isSome = true → (getLabel labels' k).isSome = true) ∧
    (∀ k, k ∉ selector.map Prod.fst → getLabel labels' k = getLabel labels k) := by
  cases labels with
  | none =>
    cases selector with
    | nil =>
      simp only [workloadservice.assignLabels, Res.ok.injEq] at h
      subst h
      exact ⟨fun _ h => h, fun _ _ => rfl⟩
    | cons e rest => simp [workloadservice.assignLabels] at h
  | some m =>
    rw [workloadservice.assignLabels_some] at h
    injection h with h
    subst h
    exact ⟨fun k hk => StrMap.setAll_get_isSome selector m k hk,
      fun k hk => StrMap.setAll_get_of_not_mem selector m k hk⟩

theorem workloadservice.collectPods_subset (selector : StrMap) (pods : List Pod) (p : Pod)
    (h : p ∈ workloadservice.collectPods selector pods) : p ∈ pods := by
  simp only [workloadservice.collectPods, List.mem_flatMap] at h
  obtain ⟨q, hq, hp⟩ := h
  split at hp
  · simp at hp
  · simp only [List.mem_map] at hp
    obtain ⟨_, _, rfl⟩ := hp
    exact hq

theorem workloadservice.updateLabelled_extends (env : Env) (selector : StrMap)
    (groomed : String) (S₀ : List Pod) (pods : List Pod) (w w' : World) (r : Res Unit)
    (hpods : ∀ q ∈ pods, ∃ p ∈ S₀, Extends (selector.map Prod.fst) p q)
    (hw : StoreExtends (selector.map Prod.fst) S₀ w.pods)
    (h : workloadservice.updateLabelled env selector groomed pods w = (r, w')) :
    StoreExtends (selector.map Prod.fst) S₀ w'.pods := by
  induction pods generalizing w with
  | nil =>
    simp only [workloadservice.updateLabelled, Prod.mk.injEq] at h
    rw [← h.2]; exact hw
  | cons pod rest ih =>
    have hrest := fun q hq => hpods q (List.mem_cons_of_mem _ hq)
    simp only [workloadservice.updateLabelled] at h
    split at h
    · rename_i labels ha
      obtain ⟨p₀, hp₀, hns, hname, hsome, hval⟩ := hpods pod (List.mem_cons_self _ _)
      obtain ⟨h₁, h₂⟩ := workloadservice.assignLabels_extends _ _ _ ha
      have hext : Extends (selector.map Prod.fst) p₀ { pod with Labels := labels } :=
        ⟨hns, hname, fun k hk => h₁ k (hsome k hk),
          fun k hk => (h₂ k hk).trans (hval k hk)⟩
      have hstep : ∀ w₁ u, podUpdate env w { pod with Labels := labels } = (u, w₁) →
          StoreExtends (selector.map Prod.fst) S₀ w₁.pods := by
        intro w₁ u hu
        rcases podUpdate_cases _ _ _ _ _ hu with ⟨_, rfl⟩ | ⟨_, _, rfl⟩
        · exact hw
        · intro q hq
          simp only [replacePod, List.mem_map] at hq
          obtain ⟨q₀, hq₀, rfl⟩ := hq
          split
          · exact ⟨p₀, hp₀, hext⟩
          · exact hw q₀ hq₀
      split at h
      · rename_i hu
        exact ih _ hrest (hstep _ _ hu) h
      · rename_i hu
        simp only [Prod.mk.injEq] at h
        rw [← h.2]; exact hstep _ _ hu
    · simp only [Prod.mk.injEq] at h
      rw [← h.2]; exact hw
    · simp only [Prod.mk.injEq] at h
      rw [← h.2]; exact hw

theorem workloadservice.tokenStep_extends (env : Env) (selector : StrMap)
    (namespaces : List String) (tok : String) (S₀ : List Pod) (ptu : List Pod)
    (targets : List String) (w w' : World) (r : Res (List Pod × List String))
    (hptu : ∀ q ∈ ptu, ∃ p ∈ S₀, Extends (selector.map Prod.fst) p q)
    (hw : StoreExtends (selector.map Prod.fst) S₀ w.pods)
    (h : workloadservice.tokenStep env selector namespaces tok ptu targets w = (r, w')) :
    StoreExtends (selector.map Prod.fst) S₀ w'.pods ∧
    ∀ ptu' targets', r = .ok (ptu', targets') →
      ∀ q ∈ ptu', ∃ p ∈ S₀, Extends (selector.map Prod.fst) p q := by
  rw [workloadservice.tokenStep_eq] at h
  split at h
  · simp only [Prod.mk.injEq] at h
    rw [← h.2, ← h.1]
    exact ⟨hw, fun _ _ hr => by cases hr⟩
  · split at h
    · simp only [workloadservice.labelTargetPods] at h
      split at h
      · simp only [Prod.mk.injEq] at h
        rw [← h.2, ← h.1]
        exact ⟨hw, fun _ _ hr => by cases hr⟩
      · split at h
        · simp only [Prod.mk.injEq] at h
          rw [← h.2, ← h.1]
          exact ⟨hw, fun _ _ hr => by cases hr⟩
        · rename_i pods hpl
          have hall : ∀ q ∈ ptu ++ workloadservice.collectPods selector pods,
              ∃ p ∈ S₀, Extends (selector.map Prod.fst) p q := by
            intro q hq
            rcases List.mem_append.1 hq with hq | hq
            · exact hptu q hq
            · have hin := workloadservice.collectPods_subset _ _ _ hq
              rw [(podList_ok _ _ _ _ _ hpl).2] at hin
              exact hw q (List.mem_filter.1 hin).1
          split at h
          · rename_i hu
            simp only [Prod.mk.injEq] at h
            rw [← h.2, ← h.1]
            refine ⟨workloadservice.updateLabelled_extends _ _ _ _ _ _ _ _ hall hw hu, ?_⟩
            intro ptu' targets' hr
            simp only [Res.ok.injEq, Prod.mk.injEq] at hr
            rw [← hr.1]; exact hall
          · rename_i hu
            simp only [Prod.mk.injEq] at h
            rw [← h.2, ← h.1]
            exact ⟨workloadservice.updateLabelled_extends _ _ _ _ _ _ _ _ hall hw hu,
              fun _ _ hr => by cases hr⟩
          · rename_i hu
            simp only [Prod.mk.injEq] at h
            rw [← h.2, ← h.1]
            exact ⟨workloadservice.updateLabelled_extends _ _ _ _ _ _ _ _ hall hw hu,
              fun _ _ hr => by cases hr⟩
    · simp only [Prod.mk.injEq] at h
      rw [← h.2, ← h.1]
      refine ⟨hw, ?_⟩
      intro ptu' targets' hr
      simp only [Res.ok.injEq, Prod.mk.injEq] at hr
      rw [← hr.1]; exact hptu

theorem workloadservice.updatePodsLoop_extends (env : Env) (selector : StrMap)
    (namespaces : List String) (toks : List String) (S₀ : List Pod) (ptu : List Pod)
    (targets : List String) (w w' : World) (r : Res (List Pod × List String))
    (hptu : ∀ q ∈ ptu, ∃ p ∈ S₀, Extends (selector.map Prod.fst) p q)
    (hw : StoreExtends (selector.map Prod.fst) S₀ w.pods)
    (h : workloadservice.updatePodsLoop env selector namespaces toks ptu targets w = (r, w')) :
    StoreExtends (selector.map Prod.fst) S₀ w'.pods := by
  induction toks generalizing ptu targets w with
  | nil =>
    simp only [workloadservice.updatePodsLoop, Prod.mk.injEq] at h
    rw [← h.2]; exact hw
  | cons tok rest ih =>
    simp only [workloadservice.updatePodsLoop] at h
    split at h
    · rename_i ptu₁ targets₁ w₁ hs
      obtain ⟨h₁, h₂⟩ := workloadservice.tokenStep_extends _ _ _ _ _ _ _ _ _ _ hptu hw hs
      exact ih _ _ _ (h₂ _ _ rfl) h₁ h
    · rename_i hs
      simp only [Prod.mk.injEq] at h
      rw [← h.2]
      exact (workloadservice.tokenStep_extends _ _ _ _ _ _ _ _ _ _ hptu hw hs).1
    · rename_i hs
      simp only [Prod.mk.injEq] at h
      rw [← h.2]
      exact (workloadservice.tokenStep_extends _ _ _ _ _ _ _ _ _ _ hptu hw hs).1

theorem workloadservice.reconcilePods_extends (env : Env) (w : World) (obj : Service) :
    StoreExtends ((workloadservice.selectorAfter obj).map Prod.fst) w.pods
      (workloadservice.reconcilePods env w obj).world.pods ∧
    (workloadservice.reconcilePods env w obj).world.pods.map (fun p => (p.Namespace, p.Name))
      = w.pods.map (fun p => (p.Namespace, p.Name)) := by
  cases hann : obj.Annotations with
  | none =>
    simp only [workloadservice.reconcilePods, hann]
    exact ⟨storeExtends_same _ _, trivial⟩
  | some annotations =>
    cases hval : annotations.get workloadservice.WorkloadAnnotation with
    | none =>
      simp only [workloadservice.reconcilePods, hann, hval]
      exact ⟨storeExtends_same _ _, trivial⟩
    | some value =>
      rw [workloadservice.reconcilePods_eq env w obj annotations value hann hval]
      simp only [workloadservice.updatePods, workloadservice.withSelector_selector,
        Option.getD_some]
      cases hns : env.GetProjectNamespaces (workloadservice.withSelector obj) with
      | error e => exact ⟨storeExtends_same _ _, rfl⟩
      | ok namespaces =>
        simp only
        cases hl : workloadservice.updatePodsLoop env (workloadservice.selectorAfter obj)
            namespaces (Split value ',') [] [] w with
        | mk res w₁ =>
          have hext := workloadservice.updatePodsLoop_extends env _ namespaces _ w.pods []
            [] w w₁ res (fun q hq => by simp at hq) (storeExtends_same _ _) hl
          have hkeys := workloadservice.updatePodsLoop_keys _ _ _ _ _ _ _ _ _ hl
          cases res with
          | ok st => exact ⟨hext, hkeys⟩
          | error e => exact ⟨hext, hkeys⟩
          | panic m => exact ⟨hext, hkeys⟩

theorem endpoint.triggerServices_stores (env : Env) (keys : List String) (w : World) :
    (endpoint.triggerServices env keys w).2.pods = w.pods ∧
    (endpoint.triggerServices env keys w).2.services = w.services := by
  induction keys generalizing w with
  | nil => exact ⟨rfl, rfl⟩
  | cons key rest ih =>
    simp only [endpoint.triggerServices]
    split
    · split
      · split <;> exact ⟨rfl, rfl⟩
      · exact ih _
    · exact ⟨rfl, rfl⟩

theorem endpoint.reconcileServiceForEndpoint_pods (env : Env) (w : World)
    (obj : Endpoints) (create : Bool) :
    (endpoint.reconcileServiceForEndpoint env w obj create).2.pods = w.pods := by
  simp only [endpoint.reconcileServiceForEndpoint]
  split
  · rfl
  · exact (endpoint.triggerServices_stores env _ w).1

/-- C14: for every store state (one pod per namespace and name) and every operation
of the three reconcilers (service Create / Updated / Remove, pod sync, endpoint
Create / Updated / Remove), whether it returns normally, returns an error or panics,
the pod store afterwards holds pods under the same namespaces and names, every label
key a pod had it still has, and every label whose key is not a key of the reconciled
service's selector keeps its value. -/
theorem pod_labels_append_only (env : Env) (w : World) (op : Operation)
    (hunique : PodsUnique w.pods) :
    (op.run env w).pods.map (fun p => (p.Namespace, p.Name))
      = w.pods.map (fun p => (p.Namespace, p.Name)) ∧
    ∀ p ∈ w.pods, ∀ p' ∈ (op.run env w).pods,
      p'.Namespace = p.Namespace → p'.Name = p.Name →
        (∀ k, (getLabel p.Labels k).isSome = true → (getLabel p'.Labels k).isSome = true) ∧
        (∀ k, k ∉ op.selectorKeys → getLabel p'.Labels k = getLabel p.Labels k) := by
  have hsame : ∀ S : List Pod, S = w.pods →
      S.map (fun p => (p.Namespace, p.Name)) = w.pods.map (fun p => (p.Namespace, p.Name)) ∧
      ∀ p ∈ w.pods, ∀ p' ∈ S, p'.Namespace = p.Namespace → p'.Name = p.Name →
        (∀ k, (getLabel p.Labels k).isSome = true → (getLabel p'.Labels k).isSome = true) ∧
        (∀ k, k ∉ op.selectorKeys → getLabel p'.Labels k = getLabel p.Labels k) := by
    intro S hS
    subst hS
    refine ⟨rfl, ?_⟩
    intro p hp p' hp' hns hname
    have := hunique p' hp' p hp hns hname
    subst this
    exact ⟨fun _ h => h, fun _ _ => rfl⟩
  have hservice : ∀ obj : Service,
      (workloadservice.reconcilePods env w obj).world.pods.map
        (fun p => (p.Namespace, p.Name)) = w.pods.map (fun p => (p.Namespace, p.Name)) ∧
      ∀ p ∈ w.pods, ∀ p' ∈ (workloadservice.reconcilePods env w obj).world.pods,
        p'.Namespace = p.Namespace → p'.Name = p.Name →
          (∀ k, (getLabel p.Labels k).isSome = true →
            (getLabel p'.Labels k).isSome = true) ∧
          (∀ k, k ∉ (workloadservice.selectorAfter obj).map Prod.fst →
            getLabel p'.Labels k = getLabel p.Labels k) := by
    intro obj
    obtain ⟨hext, hkeys⟩ := workloadservice.reconcilePods_extends env w obj
    refine ⟨hkeys, ?_⟩
    intro p hp p' hp' hns hname
    obtain ⟨p₀, hp₀, h₁, h₂, h₃, h₄⟩ := hext p' hp'
    have := hunique p₀ hp₀ p hp (h₁.symm.trans hns) (h₂.symm.trans hname)
    subst this
    exact ⟨h₃, h₄⟩
  cases op with
  | serviceCreate obj => exact hservice obj
  | serviceUpdated obj => exact hservice obj
  | serviceRemove obj => exact hsame _ rfl
  | podSync key obj =>
    exact hsame _ (by
      show (podtoworkload.sync env w key obj).2.pods = w.pods
      rw [podtoworkload.sync_changes_nothing])
  | endpointCreate obj => exact hsame _ (endpoint.reconcileServiceForEndpoint_pods env w obj true)
  | endpointUpdated obj =>
    exact hsame _ (endpoint.reconcileServiceForEndpoint_pods env w obj false)
  | endpointRemove obj =>
    exact hsame _ (endpoint.reconcileServiceForEndpoint_pods env w obj false)

/-- Witness of C14: `svcOverride` selects `app=x`; its reconciliation overwrites the
label `app` of the matched pod, adds the synthetic label and keeps `tier=t`. -/
theorem pod_labels_append_only_witness :
    PodsUnique tierWorld.pods ∧
    ((Operation.serviceUpdated svcOverride).run exampleEnv tierWorld).pods =
      [⟨"ns1", "pod-a",
        some [("app", "x"), ("tier", "t"), ("workloadID_svc-a", "true")], none⟩] ∧
    (Operation.serviceUpdated svcOverride).selectorKeys = ["app", "workloadID_svc-a"] ∧
    (∀ p' ∈ ((Operation.serviceUpdated svcOverride).run exampleEnv tierWorld).pods,
      p'.Namespace = podTier.Namespace → p'.Name = podTier.Name →
        (∀ k, (getLabel podTier.Labels k).isSome = true →
          (getLabel p'.Labels k).isSome = true) ∧
        (∀ k, k ∉ (Operation.serviceUpdated svcOverride).selectorKeys →
          getLabel p'.Labels k = getLabel podTier.Labels k)) :=
  ⟨by decide, by decide, by decide,
    (pod_labels_append_only exampleEnv tierWorld (.serviceUpdated svcOverride)
      (by decide)).2 podTier (by decide)⟩

end WorkloadController
